import Mathlib

/-!
Verification of the askiplot terminal-plotting library (src/include/askiplot.hpp)
against its natural-language specification.

The embedding models the canvas as a total function from integer
coordinates to glyph cells, mirroring the unchecked `At(col,row)` access of
the source; the C++ `for` loops that write cell rectangles are modelled by
structural recursion on the iteration count.  C++ `double` arithmetic on
axis limits is modelled by exact rationals, C++ `int` division by
`Int.tdiv` (truncation toward zero), and `static_cast<int>` of a floating
value by truncation toward zero of a rational.  Code whose execution is
undefined in C++ (integer division by zero, out-of-bounds vector writes)
is modelled with `Option`/`Except` failure values.
-/

namespace Askiplot

/-- A glyph cell: a style name plus a glyph value, as in class `Brush`
(askiplot.hpp).  The default-constructed brush has name "Blank" and value
`DefaultBrushBlank`, a single space. -/
structure Brush where
  name : String
  value : String
deriving DecidableEq

/-- The default-constructed `Brush()`: name "Blank", value " ". -/
def defaultBrush : Brush := ⟨"Blank", " "⟩

/-- The canvas storage: cell at (col, row).  The source stores cells in a
column-major `std::vector` indexed by `row + height*col` with unchecked
access; a total function over integer coordinates models that unchecked
indexing. -/
def Grid : Type := Int → Int → Brush

/-- The nine compass anchors of `enum RelativePosition`. -/
inductive RelativePosition where
  | North | NorthEast | East | SouthEast | South | SouthWest | West | NorthWest | Center
deriving DecidableEq

export RelativePosition (North NorthEast East SouthEast South SouthWest West NorthWest Center)

/-- `class Position`: a column/row offset plus a compass anchor;
`IsAbsolute()` holds exactly when the anchor is SouthWest. -/
structure Position where
  col : Int
  row : Int
  rel : RelativePosition
deriving DecidableEq

/-- The per-side auto-limit mask, `Borders` (Left, Right, Bottom, Top bits). -/
structure BordersMask where
  left : Bool
  right : Bool
  bottom : Bool
  top : Bool
deriving DecidableEq

/-- `Borders::All`: all four bits set. -/
def allBorders : BordersMask := ⟨true, true, true, true⟩

/-- One legend entry, `class PlotMetadata` (label, length, brush). -/
structure PlotMetadata where
  label : String
  len : Nat
  brush : Brush
deriving DecidableEq

/-- The palette, `class Palette`: a name-to-glyph map.  `none` means the
name is absent, in which case `GetBrush` falls back to a default brush. -/
def PaletteMap : Type := String → Option String

/-- The nine brushes inserted by `Palette::Reset()`, with the default
glyph strings (`DefaultBrushMain` etc.). -/
def defaultPalette : PaletteMap := fun n =>
  if n = "Main" then some "_"
  else if n = "Blank" then some " "
  else if n = "Area" then some "#"
  else if n = "LineHorizontal" then some "-"
  else if n = "LineVertical" then some "|"
  else if n = "BorderTop" then some "_"
  else if n = "BorderBottom" then some "_"
  else if n = "BorderLeft" then some "|"
  else if n = "BorderRight" then some "|"
  else none

/-- `Palette::GetBrush`: a missing name yields the default-constructed
brush (name "Blank", value " "). -/
def paletteGetBrush (p : PaletteMap) (n : String) : Brush :=
  match p n with
  | none => defaultBrush
  | some v => ⟨n, v⟩

/-- The state of `__Plot`: dimensions, cell grid, palette, name and title,
auto-limit mask, axis limits with their margins, and legend metadata.
Doubles are modelled as rationals.  A fresh plot (explicit positive size)
gets the field values assigned by the `__Plot(width, height)` constructor. -/
structure Plot where
  width : Int
  height : Int
  cells : Grid
  palette : PaletteMap
  name : String
  title : String
  autolimit : BordersMask
  xlim_margin : Rat
  xlim_left : Rat
  xlim_right : Rat
  ylim_margin : Rat
  ylim_bottom : Rat
  ylim_top : Rat
  metadata : List PlotMetadata

/-- `__Plot(width, height)` with an explicit positive size: the canvas
vector is filled with default-constructed brushes; `autolimit_ = All`,
`xlim_margin_ = 0.01`, limits `[0,1]`, `ylim_margin_ = 0.020`.  (The
terminal-size query taken when a dimension is 0 is an external collaborator
and out of scope.) -/
def freshPlot (w h : Int) : Plot :=
  { width := w
    height := h
    cells := fun _ _ => defaultBrush
    palette := defaultPalette
    name := ""
    title := ""
    autolimit := allBorders
    xlim_margin := 1/100
    xlim_left := 0
    xlim_right := 1
    ylim_margin := 2/100
    ylim_bottom := 0
    ylim_top := 1
    metadata := [] }

/-- `BlankLike(plot)`: a fresh plot of the same dimensions. -/
def BlankLike (p : Plot) : Plot := freshPlot p.width p.height

/-! ## Rectangle-writing loops

All cell-writing loops of the source (`Fill`, both branches of `Fuse`)
have the shape

  for (i = cb; i < ce; ++i)
    for (j = rb; j < re; ++j)
      if (cond i j) At(i + offc, j + offr) = val i j;

They are modelled by recursion on the number of remaining iterations. -/

/-- A single `At(c, r) = b` store. -/
def writeCell (g : Grid) (c r : Int) (b : Brush) : Grid :=
  fun c' r' => if c' = c ∧ r' = r then b else g c' r'

/-- The inner row loop at column `i`: `n` iterations starting at row `j`. -/
def loopRows (cond : Int → Int → Bool) (val : Int → Int → Brush)
    (offc offr i : Int) : Grid → Int → Nat → Grid
  | g, _, 0 => g
  | g, j, n+1 =>
      loopRows cond val offc offr i
        (if cond i j then writeCell g (i + offc) (j + offr) (val i j) else g)
        (j + 1) n

/-- The outer column loop: `n` iterations starting at column `i`, each
running the full row loop over `[rb, re)`. -/
def loopCols (cond : Int → Int → Bool) (val : Int → Int → Brush)
    (offc offr rb re : Int) : Grid → Int → Nat → Grid
  | g, _, 0 => g
  | g, i, n+1 =>
      loopCols cond val offc offr rb re
        (loopRows cond val offc offr i g rb (re - rb).toNat)
        (i + 1) n

/-- The double loop over the rectangle `[cb, ce) x [rb, re)`. -/
def rectWrite (g : Grid) (cond : Int → Int → Bool) (val : Int → Int → Brush)
    (offc offr cb ce rb re : Int) : Grid :=
  loopCols cond val offc offr rb re g cb (ce - cb).toNat

/-! ## Canvas operations -/

/-- `__Plot::Fill(brush)`: two nested loops (columns outer, rows inner)
store `brush` into every cell of the `width x height` rectangle. -/
def Fill (p : Plot) (brush : Brush) : Plot :=
  { p with cells :=
      rectWrite p.cells (fun _ _ => true) (fun _ _ => brush) 0 0 0 p.width 0 p.height }

/-- `__Plot::Clear()`: fill with the palette's "Blank" brush. -/
def Clear (p : Plot) : Plot :=
  Fill p (paletteGetBrush p.palette "Blank")

/-- `__Plot::Serialize()`: rows from `height - 1` down to `0`, each cell's
glyph value appended in column order, then a newline after each row.  The
emitted text is modelled as its character list. -/
def Serialize (p : Plot) : List Char :=
  ((List.range p.height.toNat).map (fun (k : Nat) =>
    ((List.range p.width.toNat).map (fun (i : Nat) =>
      (p.cells (i : Int) (p.height - 1 - (k : Int))).value.data)).flatten
    ++ ['\n'])).flatten

/-- `__Plot::GetAbsolutePosition`: resolve a compass anchor to a
SouthWest-anchored absolute position by adding the anchor's offset. -/
def GetAbsolutePosition (p : Plot) (position : Position) : Position :=
  match position.rel with
  | North => ⟨position.col + Int.tdiv p.width 2, position.row + (p.height - 1), SouthWest⟩
  | NorthEast => ⟨position.col + (p.width - 1), position.row + (p.height - 1), SouthWest⟩
  | East => ⟨position.col + (p.width - 1), position.row + Int.tdiv p.height 2, SouthWest⟩
  | SouthEast => ⟨position.col + (p.width - 1), position.row + 0, SouthWest⟩
  | South => ⟨position.col + Int.tdiv p.width 2, position.row + 0, SouthWest⟩
  | SouthWest => ⟨position.col + 0, position.row + 0, SouthWest⟩
  | West => ⟨position.col + 0, position.row + Int.tdiv p.height 2, SouthWest⟩
  | NorthWest => ⟨position.col + 0, position.row + (p.height - 1), SouthWest⟩
  | Center => ⟨position.col + Int.tdiv p.width 2, position.row + Int.tdiv p.height 2, SouthWest⟩

/-- `__Plot::AdjustAbsolutePosition(position, box_width, box_height,
drawing_upwards)`: resolve the position if it is not absolute, then clamp
it so a `box_width x box_height` box fits on-canvas; row clamping depends
on the drawing direction. -/
def AdjustAbsolutePosition (p : Plot) (position : Position)
    (box_width box_height : Int) (drawing_upwards : Bool) : Position :=
  let pos := if position.rel = SouthWest then position else GetAbsolutePosition p position
  let new_col := max 0 pos.col
  let new_row := min (p.height - 1) pos.row
  let free_cols := p.width - new_col
  let free_rows := if drawing_upwards then p.height - new_row else new_row + 1
  let new_col2 := if free_cols < box_width then max 0 (p.width - box_width) else new_col
  let new_row2 :=
    if free_rows < box_height then
      if drawing_upwards then max 0 (p.height - box_height)
      else min (p.height - 1) (box_height - 1)
    else new_row
  ⟨new_col2, new_row2, SouthWest⟩

/-- The offset at which `__Plot::Fuse` copies `other` into `this`: the
resolved position, boundary-adjusted (for the box `other.width x
other.height`, drawing upwards) when `adjust` is set. -/
def fuseOffset (dst other : Plot) (position : Position) (adjust : Bool) : Position :=
  let pos_abs := GetAbsolutePosition dst position
  if adjust then AdjustAbsolutePosition dst pos_abs other.width other.height true
  else pos_abs

/-- `__Plot::Fuse(other, position, keep_blanks, adjust)`: clip the copy
loops to the destination bounds on both axes, then copy every source cell
(`KeepBlanks`) or only those whose style name is not "Blank"
(`IgnoreBlanks`). -/
def Fuse (dst other : Plot) (position : Position)
    (keep_blanks : Bool) (adjust : Bool) : Plot :=
  let off := fuseOffset dst other position adjust
  let off_c := off.col
  let off_r := off.row
  let col_beg := max 0 (-off_c)
  let col_end := min other.width (dst.width - off_c)
  let row_beg := max 0 (-off_r)
  let row_end := min other.height (dst.height - off_r)
  let keepGrid := rectWrite dst.cells (fun _ _ => true) (fun i j => other.cells i j)
    off_c off_r col_beg col_end row_beg row_end
  let skipGrid := rectWrite dst.cells (fun i j => decide ((other.cells i j).name ≠ "Blank"))
    (fun i j => other.cells i j) off_c off_r col_beg col_end row_beg row_end
  if keep_blanks then { dst with cells := keepGrid }
  else { dst with cells := skipGrid }

/- `__Plot::Move(offset)` is not modelled: its body calls
`Fuse(copy, offset, DontAdjust)` where `Fuse` takes a `BlankFusion` third
argument and `DontAdjust` has the unrelated type `AdjustPosition`, with
no conversion between them, so instantiating `Move` is a C++ compile
error (and nothing in the repository instantiates it).  The member only
survives in the header because uninstantiated template members are not
type-checked. -/

/-- `__Plot::Shift(offset)`: fuse this plot onto `BlankLike` of itself at
the offset (KeepBlanks, DontAdjust) and assign the result back, replacing
the whole plot state. -/
def Shift (p : Plot) (off_col off_row : Int) : Plot :=
  Fuse (BlankLike p) p ⟨off_col, off_row, SouthWest⟩ true false

/-! ## Axis-limit setters and auto-limits -/

/-- `__Plot::SetXlimLeft`: accepted only when it stays below the current
right limit. -/
def SetXlimLeft (p : Plot) (new_xlim_left : Rat) : Plot :=
  if new_xlim_left < p.xlim_right then { p with xlim_left := new_xlim_left } else p

/-- `__Plot::SetXlimRight`. -/
def SetXlimRight (p : Plot) (new_xlim_right : Rat) : Plot :=
  if p.xlim_left < new_xlim_right then { p with xlim_right := new_xlim_right } else p

/-- `__Plot::SetYlimBottom`. -/
def SetYlimBottom (p : Plot) (new_ylim_bottom : Rat) : Plot :=
  if new_ylim_bottom < p.ylim_top then { p with ylim_bottom := new_ylim_bottom } else p

/-- `__Plot::SetYlimTop`. -/
def SetYlimTop (p : Plot) (new_ylim_top : Rat) : Plot :=
  if p.ylim_bottom < new_ylim_top then { p with ylim_top := new_ylim_top } else p

/-- `__Plot::SetXlimits`: both x limits at once, accepted only when
ordered. -/
def SetXlimits (p : Plot) (new_xlim_left new_xlim_right : Rat) : Plot :=
  if new_xlim_left < new_xlim_right then
    { p with xlim_left := new_xlim_left, xlim_right := new_xlim_right }
  else p

/-- `__Plot::SetYlimits`. -/
def SetYlimits (p : Plot) (new_ylim_bottom new_ylim_top : Rat) : Plot :=
  if new_ylim_bottom < new_ylim_top then
    { p with ylim_bottom := new_ylim_bottom, ylim_top := new_ylim_top }
  else p

/-- The spec's axis-limit invariant: `xlimLeft < xlimRight` and
`ylimBottom < ylimTop`, both strict. -/
def LimitsOrdered (p : Plot) : Prop :=
  p.xlim_left < p.xlim_right ∧ p.ylim_bottom < p.ylim_top

/-- `*std::min_element` over a nonempty vector (the empty case is never
reached behind the source's emptiness guards). -/
def listMin : List Rat → Rat
  | [] => 0
  | a :: as => as.foldl min a

/-- `*std::max_element` over a nonempty vector. -/
def listMax : List Rat → Rat
  | [] => 0
  | a :: as => as.foldl max a

/-- The "Left and Right" block of `__Plot::SetAutoLimits`: when the
x data is nonempty, recompute the limits selected by the auto-limit mask
and apply the proportional margin.  The margin lambda
`x_margin_surplus` reads the limit fields at call time, after the min/max
assignments, exactly as in the source. -/
def setAutoLimitsX (p : Plot) (x : List Rat) : Plot :=
  if x.length > 0 then
    if p.autolimit.left then
      if p.autolimit.right then
        let l := listMin x
        let r := listMax x
        let ms := |(r - l) * p.xlim_margin|
        { p with xlim_left := l - ms, xlim_right := r + ms }
      else
        let l := listMin x
        let ms := |(p.xlim_right - l) * p.xlim_margin|
        { p with xlim_left := l - ms }
    else if p.autolimit.right then
      let r := listMax x
      let ms := |(r - p.xlim_left) * p.xlim_margin|
      { p with xlim_right := r + ms }
    else p
  else p

/-- The "Bottom and Top" block of `__Plot::SetAutoLimits`; note the
source's `ylim_bottom_ += y_margin_surplus()` (a `+=`, unlike the `-=`
used for `xlim_left_`) in the bottom-only branch. -/
def setAutoLimitsY (p : Plot) (y : List Rat) : Plot :=
  if y.length > 0 then
    if p.autolimit.bottom then
      if p.autolimit.top then
        let b := listMin y
        let t := listMax y
        let ms := |(t - b) * p.ylim_margin|
        { p with ylim_bottom := b - ms, ylim_top := t + ms }
      else
        let b := listMin y
        let ms := |(p.ylim_top - b) * p.ylim_margin|
        { p with ylim_bottom := b + ms }
    else if p.autolimit.top then
      let t := listMax y
      let ms := |(t - p.ylim_bottom) * p.ylim_margin|
      { p with ylim_top := t + ms }
    else p
  else p

/-- `__Plot::SetAutoLimits(x, y)`: the x block followed by the y block. -/
def SetAutoLimits (p : Plot) (x y : List Rat) : Plot :=
  setAutoLimitsY (setAutoLimitsX p x) y

/-- `static_cast<int>` of a C++ `double`: truncation toward zero,
modelled on rationals. -/
def cppIntCast (q : Rat) : Int :=
  Int.tdiv q.num (q.den : Int)

/-- `__Plot::DrawPoints(x, y)`: recompute the auto limits from the data,
then plot every pair that lies strictly inside the limit rectangle,
mapping data coordinates to cells through the step sizes. -/
def DrawPoints (p : Plot) (x y : List Rat) : Plot :=
  let p := SetAutoLimits p x y
  let xstep := (p.xlim_right - p.xlim_left) / (p.width : Rat)
  let ystep := (p.ylim_top - p.ylim_bottom) / (p.height : Rat)
  let n := min x.length y.length
  let brush := paletteGetBrush p.palette "Main"
  { p with cells :=
      (List.range n).foldl (fun g k =>
        let xi := x.getD k 0
        let yi := y.getD k 0
        if p.xlim_left < xi ∧ xi < p.xlim_right ∧ p.ylim_bottom < yi ∧ yi < p.ylim_top
        then writeCell g (cppIntCast ((xi - p.xlim_left) / xstep))
          (cppIntCast ((yi - p.ylim_bottom) / ystep)) brush
        else g) p.cells }

/-! ## Bar grouping (class BarGrouper) -/

/-- One entry of `BarGrouper::metadata_`, `class BarPlotMetadata`: label,
brush, series length, converted y-data, and the integer-formatting flag. -/
structure BarPlotMetadata where
  label : String
  brush : Brush
  len : Int
  ydata : List Rat
  integral : Bool

/-- `class BarGrouper` state: the base plot (held by reference in the
source), group-size and group-count bookkeeping, the per-series metadata,
the brush rotation and the group-name flag. -/
structure BarGrouper where
  baseplot : Plot
  group_size : Int
  ngroups : Int
  metadata : List BarPlotMetadata
  brushes : List Brush
  brush_index : Int
  group_names : Bool

/-- The `BarGrouper(baseplot, brushes)` constructor. -/
def mkBarGrouper (baseplot : Plot) (brushes : List Brush) : BarGrouper :=
  { baseplot := baseplot
    group_size := 0
    ngroups := 0
    metadata := []
    brushes := brushes
    brush_index := 0
    group_names := true }

/-- `BarGrouper::Add(ydata, label, brush)`: the call is a no-op unless
`(group_size + 1) * ngroups - 1 <= width` holds for the pre-call
bookkeeping; an accepted call bumps the group size, widens the group count
to the data length, folds the series min/max into the base plot's
y-limits, and appends one metadata entry to the grouper and one legend
entry to the base plot.  An accepted call has undefined behaviour —
modelled as `none` — when the data is shorter than the updated group
count (`std::transform` reads `ydata.begin() + ngroups_`, past the end)
or the updated group count is zero (`*minmax.first` dereferences the
`end()` iterator of the empty `ydata_double`); in the remaining defined
cases the group count equals the data length, so the `take` below reads
exactly the whole series as the source does.  The `integral` argument
stands for the source's `std::is_integral<Ty>::value`. -/
def BarGrouper.Add (bg : BarGrouper) (ydata : List Rat) (label : String)
    (brush : Brush) (integral : Bool) : Option BarGrouper :=
  if (bg.group_size + 1) * bg.ngroups - 1 ≤ bg.baseplot.width then
    let group_size := bg.group_size + 1
    let ngroups := max bg.ngroups (ydata.length : Int)
    if (ydata.length : Int) < ngroups ∨ ngroups = 0 then none
    else
      let ydata_double := ydata.take ngroups.toNat
      let current_min := listMin ydata_double
      let current_max := listMax ydata_double
      let baseplot := SetYlimits bg.baseplot
        (min bg.baseplot.ylim_bottom current_min)
        (max bg.baseplot.ylim_top current_max)
      let baseplot := { baseplot with metadata :=
        baseplot.metadata ++ [⟨label, 0, brush⟩] }
      some { bg with
        baseplot := baseplot
        group_size := group_size
        ngroups := ngroups
        metadata := bg.metadata ++ [⟨label, brush, ngroups, ydata_double, integral⟩] }
  else some bg

/-- Two successive `Add` calls of length-4 series on a grouper over a
10-wide base plot (both calls defined: nonempty data at least as long as
the running group count): after the first call one group-slot row of 4
bars plus 3 spacers (total 7) fits, and the guard `(1 + 1) * 4 - 1 = 7 <=
10` lets the second call through even though the resulting total bar
count is `(2 + 1) * 4 - 1 = 11 > 10`. -/
def demoGrouper : Option BarGrouper :=
  (BarGrouper.Add (mkBarGrouper (freshPlot 10 5) [])
      [1, 2, 3, 4] "a" (Brush.mk "Area" "#") false).bind
    (fun g => BarGrouper.Add g [1, 2, 3, 4] "b" (Brush.mk "Area" "#") false)

/-! ## Histogram (class __HistPlot) -/

/-- `*std::min_element` over a nonempty integer vector. -/
def listIMin : List Int → Int
  | [] => 0
  | a :: as => as.foldl min a

/-- `*std::max_element` over a nonempty integer vector. -/
def listIMax : List Int → Int
  | [] => 0
  | a :: as => as.foldl max a

/-- `__HistPlot` state: the base plot plus `nbins_`, initialised to the
canvas width by the constructor. -/
structure HistPlot where
  plot : Plot
  nbins : Int

/-- `__HistPlot(width, height)`: `nbins_ = GetWidth()`. -/
def freshHistPlot (w h : Int) : HistPlot :=
  { plot := freshPlot w h, nbins := w }

/-- The binning artifacts computed by `PlotHistogram`: the final bin
count, the per-bin sample counts (`bar_counts_`), the scaled bar heights
(`bar_heights_`), and the plot with its x-limits updated.  (The subsequent
`Bar` list construction and `PlotBars` rendering are not modelled; the
verified claims concern the binning and the heights.) -/
structure HistData where
  nbins : Int
  counts : List Int
  heights : List Int
  plot : Plot

/-- The local `step` of `PlotHistogram`: `(max - min) / (nbins_ - 1)` in
C++ integer division. -/
def histStep (nbins mn mx : Int) : Int := Int.tdiv (mx - mn) (nbins - 1)

/-- The bin index of a sample: `(i - GetXlimLeft()) / step`, a `double`
division truncated on the `int` conversion. -/
def histIdx (xlim_left : Rat) (step : Int) (v : Int) : Int :=
  cppIntCast (((v : Rat) - xlim_left) / (step : Rat))

/-- The `bar_counts_` loop: starting from `nbins` zeroed bins, one
increment per sample at its bin index. -/
def histCounts (idx : Int → Int) (nbins : Int) (data : List Int) : List Int :=
  data.foldl (fun l v => l.set (idx v).toNat (l.getD (idx v).toNat 0 + 1))
    (List.replicate nbins.toNat 0)

/-- The `bar_heights_` loop: each count over the maximum count, times the
canvas height, times the capped resize factor, truncated to `int`. -/
def histHeights (counts : List Int) (hgt : Int) (factor : Rat) : List Int :=
  counts.map (fun (c : Int) =>
    cppIntCast ((c : Rat) / (listIMax counts : Rat) * (hgt : Rat) * factor))

/-- `__HistPlot::PlotHistogram(data, label, height_resize)` for integer
data (`T = int`): bin count `min(nbins_, distinct)`, bin width
`histStep` in C++ integer division, x-limits `[min - step/2, max +
step/2]`, one count increment per sample at `histIdx`, heights scaled so
the largest count maps to `height * min(1, resize)`.  Returns `none`
where the C++ execution is undefined: empty data (min/max of an empty
range), `nbins = 1` (integer division by zero computing `step`), a zero
`step` (the index division by zero), or a sample whose bin index falls
outside `bar_counts_` (an out-of-bounds vector write). -/
def PlotHistogram (hp : HistPlot) (data : List Int) (height_resize : Rat) :
    Option HistData :=
  if data = [] then none
  else
    let nbins := min hp.nbins ((data.dedup.length : Int))
    if nbins - 1 = 0 then none
    else
      let step := histStep nbins (listIMin data) (listIMax data)
      if step = 0 then none
      else
        let p := SetXlimits hp.plot ((listIMin data - Int.tdiv step 2 : Int) : Rat)
          ((listIMax data + Int.tdiv step 2 : Int) : Rat)
        if data.all (fun v => decide (0 ≤ histIdx p.xlim_left step v ∧
            histIdx p.xlim_left step v < nbins)) then
          let counts := histCounts (histIdx p.xlim_left step) nbins data
          some { nbins := nbins, counts := counts,
                 heights := histHeights counts p.height (min 1 height_resize),
                 plot := p }
        else none

/-! ## Brush glyph values (Brush::SetValue)

`Brush::SetValue` manipulates raw `std::string` bytes, including 2-byte
sequences that are not printable characters, so it is modelled at byte
level: a glyph value is a list of byte values. -/

/-- `std::isprint` in the default C locale: bytes 0x20 to 0x7e. -/
def isPrintByte (b : Nat) : Bool := 32 ≤ b && b ≤ 126

/-- `Brush::SetValue(value)` acting on the currently stored bytes
(`value_`): an empty value throws; a printable first byte is stored alone;
a single tab, newline or carriage return byte executes `value_[0] = ' '`,
which overwrites byte 0 of the stored string but never changes its length
(when the stored string is empty this writes through `operator[]` to the
null terminator, undefined behaviour that leaves the observable string
empty); any other single non-printable byte throws; a longer value with a
non-printable first byte stores its first two bytes verbatim. -/
def SetValue (stored : List Nat) (value : List Nat) : Except Unit (List Nat) :=
  match value with
  | [] => .error ()
  | b :: rest =>
    if isPrintByte b then .ok [b]
    else if rest = [] then
      if b = 9 ∨ b = 10 ∨ b = 13 then
        .ok (match stored with | [] => [] | _ :: t => 32 :: t)
      else .error ()
    else .ok (b :: rest.take 1)

/-- True exactly on the throwing outcomes of `SetValue`. -/
def setValueThrows (e : Except Unit (List Nat)) : Bool :=
  match e with
  | .error _ => true
  | .ok _ => false

/-! ## Bitmap decoding (class Image) -/

/-- The little-endian unsigned value of a list of bytes. -/
def leNat : List Nat → Nat
  | [] => 0
  | b :: bs => b + 256 * leNat bs

/-- Reinterpret an unsigned `w`-byte value as a two's-complement signed
integer, as the `BMPImage` struct cast does. -/
def sintOf (w : Nat) (n : Nat) : Int :=
  if n < 2 ^ (8 * w - 1) then (n : Int) else (n : Int) - 2 ^ (8 * w)

/-- The `width` header field: the signed 32-bit integer in file bytes
18-21 (`raw_ + 2` plus the struct offset 16).  `ImageDecode` consults the
field only on files that contain all four bytes, where the slice below
is exactly those bytes; on a shorter file the source's read is out of
bounds and `ImageDecode` is `none` without consulting it. -/
def bmpWidth (raw : List Nat) : Int := sintOf 4 (leNat ((raw.drop 18).take 4))

/-- The `height` header field, file bytes 22-25 (same bounds discipline
as `bmpWidth`). -/
def bmpHeight (raw : List Nat) : Int := sintOf 4 (leNat ((raw.drop 22).take 4))

/-- The `offset` header field (start of the pixel payload), file bytes
10-13 (same bounds discipline as `bmpWidth`). -/
def bmpOffset (raw : List Nat) : Int := sintOf 4 (leNat ((raw.drop 10).take 4))

/-- The `bits_per_pixel` header field: the signed 16-bit integer in file
bytes 28-29 (same bounds discipline as `bmpWidth`). -/
def bmpBitsPerPixel (raw : List Nat) : Int := sintOf 2 (leNat ((raw.drop 28).take 2))

/-- `Image::CheckFormat`: the two tag bytes must spell BM, BA, CI, CP, IC
or PC. -/
def CheckFormat (b0 b1 : Nat) : Bool :=
  (b0 == 66 && b1 == 77) || (b0 == 66 && b1 == 65) || (b0 == 67 && b1 == 73) ||
  (b0 == 67 && b1 == 80) || (b0 == 73 && b1 == 67) || (b0 == 80 && b1 == 67)

/-- The eight pixel values encoded by one 1-bit-per-pixel byte, most
significant bit first, each scaled to luminance 0 or 255. -/
def byteBits (b : Nat) : List Nat :=
  [b / 128 % 2 * 255, b / 64 % 2 * 255, b / 32 % 2 * 255, b / 16 % 2 * 255,
   b / 8 % 2 * 255, b / 4 % 2 * 255, b / 2 % 2 * 255, b % 2 * 255]

/-- `Image::ParsePayload_1`: per row, `width / 8` full bytes then the
residual bits of the following byte.  The source's row skip is
`residual_bits / 8`, which is always zero, so consecutive rows are read
`full_bytes` apart and the residual byte is re-read; the model reproduces
that stride.  `ImageDecode` calls this only under `payload1InBounds`, so
every `getD` index below names an existing byte and the default is never
taken; outside that condition the source's reads are out of bounds and
`ImageDecode` is `none` without calling this. -/
def parsePayload1 (raw : List Nat) (off w h : Int) : List Nat :=
  let full_bytes := Int.tdiv w 8
  let residual := w - full_bytes * 8
  ((List.range h.toNat).map (fun (i : Nat) =>
    ((List.range full_bytes.toNat).map (fun (j : Nat) =>
      byteBits (raw.getD (off + (i : Int) * full_bytes + (j : Int)).toNat 0))).flatten
    ++ (byteBits (raw.getD (off + (i : Int) * full_bytes + full_bytes).toNat 0)).take
        residual.toNat)).flatten

/-- `Image::ParsePayload_24`: three bytes per pixel averaged (the `/ 3.0`
double division truncated on assignment to `int`), with the source's row
skip `4 - ((width * 3) % 4)`.  Called only under `payload24InBounds`
(same discipline as `parsePayload1`). -/
def parsePayload24 (raw : List Nat) (off w h : Int) : List Nat :=
  let skip := 4 - Int.tmod (w * 3) 4
  ((List.range h.toNat).map (fun (i : Nat) =>
    (List.range w.toNat).map (fun (j : Nat) =>
      (raw.getD (off + (i : Int) * (w * 3 + skip) + (j : Int) * 3).toNat 0 +
        raw.getD (off + (i : Int) * (w * 3 + skip) + (j : Int) * 3 + 1).toNat 0 +
        raw.getD (off + (i : Int) * (w * 3 + skip) + (j : Int) * 3 + 2).toNat 0) / 3))).flatten

/-- `Image::ParsePayload_32`: four bytes per pixel, the first three
averaged, no row skip.  Called only under `payload32InBounds` (same
discipline as `parsePayload1`). -/
def parsePayload32 (raw : List Nat) (off w h : Int) : List Nat :=
  ((List.range h.toNat).map (fun (i : Nat) =>
    (List.range w.toNat).map (fun (j : Nat) =>
      (raw.getD (off + (i : Int) * (w * 4) + (j : Int) * 4).toNat 0 +
        raw.getD (off + (i : Int) * (w * 4) + (j : Int) * 4 + 1).toNat 0 +
        raw.getD (off + (i : Int) * (w * 4) + (j : Int) * 4 + 2).toNat 0) / 3))).flatten

/-- The decoded image: declared dimensions and the luminance matrix. -/
structure ImageData where
  width : Int
  height : Int
  img : List Nat
deriving DecidableEq

/-- Every payload byte `ParsePayload_1` dereferences exists in a `len`-byte
file: the base pointer `&raw_[offset]` is formable (`0 ≤ off ≤ len`) and,
when there is at least one row, the highest byte read — the
unconditionally read residual byte of the final row, at index
`off + h * (w / 8)` because each row advances by `full_bytes = w / 8`
only — lies before the end of the file. -/
def payload1InBounds (len : Nat) (off w h : Int) : Prop :=
  0 ≤ off ∧ off ≤ (len : Int) ∧
    (h = 0 ∨ off + h * Int.tdiv w 8 < (len : Int))

/-- Every payload byte `ParsePayload_24` dereferences exists: base pointer
formable and, when some pixel is read, the highest byte read — the third
channel byte of the last pixel of the last row, with row stride
`3 w + skip` — lies before the end of the file. -/
def payload24InBounds (len : Nat) (off w h : Int) : Prop :=
  0 ≤ off ∧ off ≤ (len : Int) ∧
    (h = 0 ∨ w = 0 ∨
      off + (h - 1) * (w * 3 + (4 - Int.tmod (w * 3) 4)) + w * 3 - 1 < (len : Int))

/-- Every payload byte `ParsePayload_32` dereferences exists: base pointer
formable and, when some pixel is read, the highest byte read — the third
of the four bytes of the last pixel, with row stride `4 w` — lies before
the end of the file. -/
def payload32InBounds (len : Nat) (off w h : Int) : Prop :=
  0 ≤ off ∧ off ≤ (len : Int) ∧
    (h = 0 ∨ w = 0 ∨ off + (h - 1) * (w * 4) + (w - 1) * 4 + 2 < (len : Int))

instance (len : Nat) (off w h : Int) : Decidable (payload1InBounds len off w h) :=
  inferInstanceAs (Decidable (0 ≤ off ∧ off ≤ (len : Int) ∧
    (h = 0 ∨ off + h * Int.tdiv w 8 < (len : Int))))

instance (len : Nat) (off w h : Int) : Decidable (payload24InBounds len off w h) :=
  inferInstanceAs (Decidable (0 ≤ off ∧ off ≤ (len : Int) ∧
    (h = 0 ∨ w = 0 ∨
      off + (h - 1) * (w * 3 + (4 - Int.tmod (w * 3) 4)) + w * 3 - 1 < (len : Int))))

instance (len : Nat) (off w h : Int) : Decidable (payload32InBounds len off w h) :=
  inferInstanceAs (Decidable (0 ≤ off ∧ off ≤ (len : Int) ∧
    (h = 0 ∨ w = 0 ∨ off + (h - 1) * (w * 4) + (w - 1) * 4 + 2 < (len : Int))))

/-- The `Image(path)` constructor after the file bytes are read, mirroring
the source's order of reads and checks and returning `none` exactly where
the source reads out of bounds (undefined behaviour, no defined result):
the two tag bytes need a 2-byte file; the `height`/`width` header fields
(bytes 22-25 and 18-21) need a 26-byte file; `bits_per_pixel` (bytes
28-29) needs a 30-byte file; and every payload byte the selected parser
dereferences (based at the `offset` field, bytes 10-13) must exist.
Within those bounds it throws (`Except.error`) exactly on a tag outside
the whitelist, a negative declared dimension or an unsupported bit depth,
and otherwise decodes the payload at the declared bit depth. -/
def ImageDecode (raw : List Nat) : Option (Except Unit ImageData) :=
  if raw.length < 2 then none
  else if CheckFormat (raw.getD 0 0) (raw.getD 1 0) = false then some (.error ())
  else if raw.length < 26 then none
  else if bmpHeight raw < 0 ∨ bmpWidth raw < 0 then some (.error ())
  else if raw.length < 30 then none
  else if bmpBitsPerPixel raw = 1 then
    if payload1InBounds raw.length (bmpOffset raw) (bmpWidth raw) (bmpHeight raw)
    then some (.ok ⟨bmpWidth raw, bmpHeight raw,
      parsePayload1 raw (bmpOffset raw) (bmpWidth raw) (bmpHeight raw)⟩)
    else none
  else if bmpBitsPerPixel raw = 24 then
    if payload24InBounds raw.length (bmpOffset raw) (bmpWidth raw) (bmpHeight raw)
    then some (.ok ⟨bmpWidth raw, bmpHeight raw,
      parsePayload24 raw (bmpOffset raw) (bmpWidth raw) (bmpHeight raw)⟩)
    else none
  else if bmpBitsPerPixel raw = 32 then
    if payload32InBounds raw.length (bmpOffset raw) (bmpWidth raw) (bmpHeight raw)
    then some (.ok ⟨bmpWidth raw, bmpHeight raw,
      parsePayload32 raw (bmpOffset raw) (bmpWidth raw) (bmpHeight raw)⟩)
    else none
  else some (.error ())

/-- True exactly on the throwing outcomes of the `Image` constructor. -/
def imageThrows (e : Except Unit ImageData) : Bool :=
  match e with
  | .error _ => true
  | .ok _ => false

/-- A hand-constructed 1-bit-per-pixel bitmap file: tag "BM", payload
offset 30, width 2, height 1, bit depth 1, and one payload byte 0x80
(first pixel white, second black). -/
def demoBmp : List Nat :=
  [66, 77, 0, 0, 0, 0, 0, 0, 0, 0, 30, 0, 0, 0, 0, 0, 0, 0,
   2, 0, 0, 0, 1, 0, 0, 0, 0, 0, 1, 0, 128]

/-! ## Loop characterization lemmas -/

theorem loopRows_cells (cond : Int → Int → Bool) (val : Int → Int → Brush)
    (offc offr i : Int) :
    ∀ (n : Nat) (g : Grid) (j0 c r : Int),
      loopRows cond val offc offr i g j0 n c r =
        if c = i + offc ∧ j0 + offr ≤ r ∧ r < j0 + (n : Int) + offr ∧
            cond i (r - offr) = true
        then val i (r - offr) else g c r := by
  intro n
  induction n with
  | zero =>
      intro g j0 c r
      rw [loopRows, if_neg]
      rintro ⟨-, h1, h2, -⟩
      omega
  | succ n ih =>
      intro g j0 c r
      rw [loopRows, ih]
      have hcell : (if cond i j0 = true
            then writeCell g (i + offc) (j0 + offr) (val i j0) else g) c r =
          if c = i + offc ∧ r = j0 + offr ∧ cond i j0 = true
          then val i j0 else g c r := by
        by_cases hcond : cond i j0 = true
        · rw [if_pos hcond, writeCell]
          by_cases hcr : c = i + offc ∧ r = j0 + offr
          · rw [if_pos hcr, if_pos ⟨hcr.1, hcr.2, hcond⟩]
          · rw [if_neg hcr, if_neg (fun h => hcr ⟨h.1, h.2.1⟩)]
        · rw [if_neg hcond, if_neg (fun h => hcond h.2.2)]
      rw [hcell]
      by_cases hB : c = i + offc ∧ j0 + offr ≤ r ∧ r < j0 + ((n + 1 : Nat) : Int) + offr ∧
          cond i (r - offr) = true
      · rw [if_pos hB]
        by_cases hr1 : j0 + 1 + offr ≤ r
        · have hA : c = i + offc ∧ j0 + 1 + offr ≤ r ∧ r < j0 + 1 + (n : Int) + offr ∧
              cond i (r - offr) = true := by
            obtain ⟨h1, h2, h3, h4⟩ := hB
            exact ⟨h1, hr1, by omega, h4⟩
          rw [if_pos hA]
        · have hA : ¬ (c = i + offc ∧ j0 + 1 + offr ≤ r ∧ r < j0 + 1 + (n : Int) + offr ∧
              cond i (r - offr) = true) := fun h => hr1 h.2.1
          have hC : c = i + offc ∧ r = j0 + offr ∧ cond i j0 = true := by
            obtain ⟨h1, h2, h3, h4⟩ := hB
            refine ⟨h1, by omega, ?_⟩
            rw [show j0 = r - offr by omega]
            exact h4
          rw [if_neg hA, if_pos hC]
          have : j0 = r - offr := by omega
          rw [this]
      · rw [if_neg hB]
        have hA : ¬ (c = i + offc ∧ j0 + 1 + offr ≤ r ∧ r < j0 + 1 + (n : Int) + offr ∧
            cond i (r - offr) = true) := by
          rintro ⟨h1, h2, h3, h4⟩
          exact hB ⟨h1, by omega, by omega, h4⟩
        have hC : ¬ (c = i + offc ∧ r = j0 + offr ∧ cond i j0 = true) := by
          rintro ⟨h1, h2, h3⟩
          subst h2
          exact hB ⟨h1, le_refl _, by omega, by rwa [add_sub_cancel_right]⟩
        rw [if_neg hA, if_neg hC]

theorem loopCols_cells (cond : Int → Int → Bool) (val : Int → Int → Brush)
    (offc offr rb re : Int) :
    ∀ (n : Nat) (g : Grid) (i0 c r : Int),
      loopCols cond val offc offr rb re g i0 n c r =
        if i0 + offc ≤ c ∧ c < i0 + (n : Int) + offc ∧
            rb + offr ≤ r ∧ r < rb + ((re - rb).toNat : Int) + offr ∧
            cond (c - offc) (r - offr) = true
        then val (c - offc) (r - offr) else g c r := by
  intro n
  induction n with
  | zero =>
      intro g i0 c r
      rw [loopCols, if_neg]
      rintro ⟨h1, h2, -⟩
      omega
  | succ n ih =>
      intro g i0 c r
      rw [loopCols, ih, loopRows_cells]
      by_cases hB : i0 + offc ≤ c ∧ c < i0 + ((n + 1 : Nat) : Int) + offc ∧
          rb + offr ≤ r ∧ r < rb + ((re - rb).toNat : Int) + offr ∧
          cond (c - offc) (r - offr) = true
      · rw [if_pos hB]
        by_cases hc1 : i0 + 1 + offc ≤ c
        · have hA : i0 + 1 + offc ≤ c ∧ c < i0 + 1 + (n : Int) + offc ∧
              rb + offr ≤ r ∧ r < rb + ((re - rb).toNat : Int) + offr ∧
              cond (c - offc) (r - offr) = true := by
            obtain ⟨h1, h2, h3, h4, h5⟩ := hB
            exact ⟨hc1, by omega, h3, h4, h5⟩
          rw [if_pos hA]
        · have hA : ¬ (i0 + 1 + offc ≤ c ∧ c < i0 + 1 + (n : Int) + offc ∧
              rb + offr ≤ r ∧ r < rb + ((re - rb).toNat : Int) + offr ∧
              cond (c - offc) (r - offr) = true) := fun h => hc1 h.1
          have hsub : c - offc = i0 := by omega
          have hC : c = i0 + offc ∧ rb + offr ≤ r ∧
              r < rb + ((re - rb).toNat : Int) + offr ∧ cond i0 (r - offr) = true := by
            obtain ⟨h1, h2, h3, h4, h5⟩ := hB
            rw [hsub] at h5
            exact ⟨by omega, h3, h4, h5⟩
          rw [if_neg hA, if_pos hC, hsub]
      · rw [if_neg hB]
        have hA : ¬ (i0 + 1 + offc ≤ c ∧ c < i0 + 1 + (n : Int) + offc ∧
            rb + offr ≤ r ∧ r < rb + ((re - rb).toNat : Int) + offr ∧
            cond (c - offc) (r - offr) = true) := by
          rintro ⟨h1, h2, h3, h4, h5⟩
          exact hB ⟨by omega, by omega, h3, h4, h5⟩
        have hC : ¬ (c = i0 + offc ∧ rb + offr ≤ r ∧
            r < rb + ((re - rb).toNat : Int) + offr ∧ cond i0 (r - offr) = true) := by
          rintro ⟨h1, h2, h3, h4⟩
          refine hB ⟨by omega, by omega, h2, h3, ?_⟩
          rw [show c - offc = i0 by omega]
          exact h4
        rw [if_neg hA, if_neg hC]

/-- Pointwise description of the rectangle write: a cell holds the painted
value exactly when its pre-offset coordinates lie in `[cb, ce) x [rb, re)`
and the paint condition holds there. -/
theorem rectWrite_cells (g : Grid) (cond : Int → Int → Bool)
    (val : Int → Int → Brush) (offc offr cb ce rb re c r : Int) :
    rectWrite g cond val offc offr cb ce rb re c r =
      if cb ≤ c - offc ∧ c - offc < ce ∧ rb ≤ r - offr ∧ r - offr < re ∧
          cond (c - offc) (r - offr) = true
      then val (c - offc) (r - offr) else g c r := by
  rw [rectWrite, loopCols_cells]
  by_cases h : cb ≤ c - offc ∧ c - offc < ce ∧ rb ≤ r - offr ∧ r - offr < re ∧
      cond (c - offc) (r - offr) = true
  · rw [if_pos h, if_pos ⟨by omega, by omega, by omega, by omega, h.2.2.2.2⟩]
  · rw [if_neg h, if_neg]
    rintro ⟨h1, h2, h3, h4, h5⟩
    exact h ⟨by omega, by omega, by omega, by omega, h5⟩

/-! ## Pointwise descriptions of the cell-writing operations -/

/-- `Fill` writes the brush into exactly the on-canvas cells. -/
theorem Fill_cells (p : Plot) (b : Brush) (c r : Int) :
    (Fill p b).cells c r =
      if 0 ≤ c ∧ c < p.width ∧ 0 ≤ r ∧ r < p.height then b else p.cells c r := by
  have hdef : (Fill p b).cells c r =
      rectWrite p.cells (fun _ _ => true) (fun _ _ => b) 0 0 0 p.width 0 p.height c r := rfl
  rw [hdef, rectWrite_cells]
  split_ifs with h1 h2 h2
  · rfl
  · obtain ⟨a1, a2, a3, a4, -⟩ := h1
    exact absurd ⟨by omega, by omega, by omega, by omega⟩ h2
  · exact absurd ⟨by omega, by omega, by omega, by omega, rfl⟩ h1
  · rfl

/-- `Fuse` in KeepBlanks mode: a destination cell receives the source cell
exactly when both its own coordinates and the corresponding source
coordinates are in bounds; every other cell is untouched. -/
theorem Fuse_cells_keep (dst other : Plot) (position : Position)
    (adjust : Bool) (c r : Int) :
    (Fuse dst other position true adjust).cells c r =
      if 0 ≤ c ∧ c < dst.width ∧ 0 ≤ r ∧ r < dst.height ∧
          0 ≤ c - (fuseOffset dst other position adjust).col ∧
          c - (fuseOffset dst other position adjust).col < other.width ∧
          0 ≤ r - (fuseOffset dst other position adjust).row ∧
          r - (fuseOffset dst other position adjust).row < other.height
      then other.cells (c - (fuseOffset dst other position adjust).col)
        (r - (fuseOffset dst other position adjust).row)
      else dst.cells c r := by
  have hdef : (Fuse dst other position true adjust).cells c r =
      rectWrite dst.cells (fun _ _ => true) (fun i j => other.cells i j)
        (fuseOffset dst other position adjust).col
        (fuseOffset dst other position adjust).row
        (max 0 (-(fuseOffset dst other position adjust).col))
        (min other.width (dst.width - (fuseOffset dst other position adjust).col))
        (max 0 (-(fuseOffset dst other position adjust).row))
        (min other.height (dst.height - (fuseOffset dst other position adjust).row))
        c r := rfl
  rw [hdef, rectWrite_cells]
  split_ifs with h1 h2 h2
  · rfl
  · obtain ⟨a1, a2, a3, a4, -⟩ := h1
    exact absurd ⟨by omega, by omega, by omega, by omega, by omega, by omega, by omega, by omega⟩ h2
  · obtain ⟨b1, b2, b3, b4, b5, b6, b7, b8⟩ := h2
    exact absurd ⟨by omega, by omega, by omega, by omega, rfl⟩ h1
  · rfl

/-- `Fuse` in IgnoreBlanks mode: as in KeepBlanks mode, except that source
cells whose style name is "Blank" are skipped. -/
theorem Fuse_cells_skip (dst other : Plot) (position : Position)
    (adjust : Bool) (c r : Int) :
    (Fuse dst other position false adjust).cells c r =
      if 0 ≤ c ∧ c < dst.width ∧ 0 ≤ r ∧ r < dst.height ∧
          0 ≤ c - (fuseOffset dst other position adjust).col ∧
          c - (fuseOffset dst other position adjust).col < other.width ∧
          0 ≤ r - (fuseOffset dst other position adjust).row ∧
          r - (fuseOffset dst other position adjust).row < other.height ∧
          (other.cells (c - (fuseOffset dst other position adjust).col)
            (r - (fuseOffset dst other position adjust).row)).name ≠ "Blank"
      then other.cells (c - (fuseOffset dst other position adjust).col)
        (r - (fuseOffset dst other position adjust).row)
      else dst.cells c r := by
  have hdef : (Fuse dst other position false adjust).cells c r =
      rectWrite dst.cells
        (fun i j => decide ((other.cells i j).name ≠ "Blank"))
        (fun i j => other.cells i j)
        (fuseOffset dst other position adjust).col
        (fuseOffset dst other position adjust).row
        (max 0 (-(fuseOffset dst other position adjust).col))
        (min other.width (dst.width - (fuseOffset dst other position adjust).col))
        (max 0 (-(fuseOffset dst other position adjust).row))
        (min other.height (dst.height - (fuseOffset dst other position adjust).row))
        c r := rfl
  rw [hdef, rectWrite_cells]
  split_ifs with h1 h2 h2
  · rfl
  · obtain ⟨a1, a2, a3, a4, a5⟩ := h1
    have a6 := of_decide_eq_true a5
    exact absurd ⟨by omega, by omega, by omega, by omega, by omega, by omega, by omega,
      by omega, a6⟩ h2
  · obtain ⟨b1, b2, b3, b4, b5, b6, b7, b8, b9⟩ := h2
    exact absurd ⟨by omega, by omega, by omega, by omega, decide_eq_true b9⟩ h1
  · rfl

/-- Fusing at an absolute position without adjustment copies at exactly
that offset. -/
theorem fuseOffset_noadjust (dst other : Plot) (a b : Int) :
    fuseOffset dst other ⟨a, b, SouthWest⟩ false = ⟨a, b, SouthWest⟩ := by
  simp [fuseOffset, GetAbsolutePosition]

/-- Fusing a same-size source at absolute position (0,0) with adjustment
still copies at offset (0,0): the boundary adjustment is the identity
there. -/
theorem fuseOffset_adjust_zero (dst other : Plot)
    (hH : 0 < dst.height)
    (hw : other.width = dst.width) (hh : other.height = dst.height) :
    fuseOffset dst other ⟨0, 0, SouthWest⟩ true = ⟨0, 0, SouthWest⟩ := by
  simp only [fuseOffset, GetAbsolutePosition, AdjustAbsolutePosition, hw, hh]
  simp only [if_true, if_pos rfl]
  have h1 : max 0 (0 + 0 : Int) = 0 := by omega
  have h2 : min (dst.height - 1) (0 + 0 : Int) = 0 := by omega
  rw [h1, h2]
  rw [if_neg (by omega), if_neg (by omega)]

/-! ## Claim C1 -/

/-- C1: for every plot with positive width and height, after `Fill` with
any brush, `Serialize` emits exactly `height` rows, each the
concatenation of `width` copies of the brush glyph followed by one
newline, with nothing after the last newline (the first emitted row is
the internal top row, and here all rows are equal); when the glyph value
is a single byte, each row body holds exactly `width` glyphs.  The output
shape is the same for every fill brush. -/
theorem C1_fill_serialize (p : Plot) (hW : 0 < p.width) (hH : 0 < p.height)
    (b : Brush) :
    Serialize (Fill p b) =
      (List.replicate p.height.toNat
        ((List.replicate p.width.toNat b.value.data).flatten ++ ['\n'])).flatten ∧
    (b.value.data.length = 1 →
      ((List.replicate p.width.toNat b.value.data).flatten).length = p.width.toNat) := by
  constructor
  · rw [Serialize]
    have hfh : (Fill p b).height = p.height := rfl
    have hfw : (Fill p b).width = p.width := rfl
    rw [hfh, hfw]
    have hline : ∀ k ∈ List.range p.height.toNat,
        (((List.range p.width.toNat).map (fun (i : Nat) =>
          ((Fill p b).cells (i : Int) (p.height - 1 - (k : Int))).value.data)).flatten
          ++ ['\n'])
        = ((List.replicate p.width.toNat b.value.data).flatten ++ ['\n']) := by
      intro k hk
      rw [List.mem_range] at hk
      have hcells : ∀ i ∈ List.range p.width.toNat,
          ((Fill p b).cells (i : Int) (p.height - 1 - (k : Int))).value.data
          = b.value.data := by
        intro i hi
        rw [List.mem_range] at hi
        have hin : 0 ≤ (i : Int) ∧ (i : Int) < p.width ∧
            0 ≤ p.height - 1 - (k : Int) ∧ p.height - 1 - (k : Int) < p.height :=
          ⟨by omega, by omega, by omega, by omega⟩
        rw [Fill_cells, if_pos hin]
      rw [List.map_congr_left hcells, List.map_const', List.length_range]
    rw [List.map_congr_left hline, List.map_const', List.length_range]
  · intro h1
    simp [List.length_flatten, List.map_replicate, List.sum_replicate, smul_eq_mul, h1]

/-- Witness for C1: a concrete 2 x 2 plot filled with a single-byte
brush. -/
theorem C1_fill_serialize_witness :
    0 < (freshPlot 2 2).width ∧ 0 < (freshPlot 2 2).height ∧
    (Serialize (Fill (freshPlot 2 2) (Brush.mk "*" "x")) =
      (List.replicate (freshPlot 2 2).height.toNat
        ((List.replicate (freshPlot 2 2).width.toNat
          (Brush.mk "*" "x").value.data).flatten ++ ['\n'])).flatten ∧
    ((Brush.mk "*" "x").value.data.length = 1 →
      ((List.replicate (freshPlot 2 2).width.toNat
        (Brush.mk "*" "x").value.data).flatten).length = (freshPlot 2 2).width.toNat)) :=
  ⟨by decide, by decide,
    C1_fill_serialize (freshPlot 2 2) (by decide) (by decide) (Brush.mk "*" "x")⟩

/-! ## Claim C2 -/

/-- C2: fusing a source plot onto a same-size blank destination at offset
(0,0) with blanks kept reproduces every source cell (identity law); and
fusing onto an arbitrary same-size destination at (0,0) with blanks
ignored leaves a destination cell unchanged when the corresponding source
cell's style name is "Blank" and overwrites it with the source cell
otherwise. -/
theorem C2_fuse_identity_transparency (S : Plot) (hW : 0 < S.width)
    (hH : 0 < S.height) :
    (∀ c r : Int, 0 ≤ c → c < S.width → 0 ≤ r → r < S.height →
      (Fuse (BlankLike S) S ⟨0, 0, SouthWest⟩ true true).cells c r = S.cells c r) ∧
    (∀ D : Plot, D.width = S.width → D.height = S.height →
      ∀ c r : Int, 0 ≤ c → c < S.width → 0 ≤ r → r < S.height →
        (Fuse D S ⟨0, 0, SouthWest⟩ false true).cells c r =
          if (S.cells c r).name = "Blank" then D.cells c r else S.cells c r) := by
  constructor
  · intro c r h1 h2 h3 h4
    have hoff : fuseOffset (BlankLike S) S ⟨0, 0, SouthWest⟩ true =
        ⟨0, 0, SouthWest⟩ :=
      fuseOffset_adjust_zero (BlankLike S) S hH rfl rfl
    rw [Fuse_cells_keep, hoff]
    have hBw : (BlankLike S).width = S.width := rfl
    have hBh : (BlankLike S).height = S.height := rfl
    have hc0 : (Position.mk 0 0 SouthWest).col = 0 := rfl
    have hr0 : (Position.mk 0 0 SouthWest).row = 0 := rfl
    rw [hBw, hBh, hc0, hr0, sub_zero, sub_zero]
    have hcond : 0 ≤ c ∧ c < S.width ∧ 0 ≤ r ∧ r < S.height ∧
        0 ≤ c ∧ c < S.width ∧ 0 ≤ r ∧ r < S.height :=
      ⟨h1, h2, h3, h4, h1, h2, h3, h4⟩
    rw [if_pos hcond]
  · intro D hDw hDh c r h1 h2 h3 h4
    have hoff : fuseOffset D S ⟨0, 0, SouthWest⟩ true = ⟨0, 0, SouthWest⟩ :=
      fuseOffset_adjust_zero D S (by omega) (by omega) (by omega)
    rw [Fuse_cells_skip, hoff]
    have hc0 : (Position.mk 0 0 SouthWest).col = 0 := rfl
    have hr0 : (Position.mk 0 0 SouthWest).row = 0 := rfl
    rw [hc0, hr0, sub_zero, sub_zero]
    by_cases hname : (S.cells c r).name = "Blank"
    · rw [if_neg (fun h => h.2.2.2.2.2.2.2.2 hname), if_pos hname]
    · have hcond : 0 ≤ c ∧ c < D.width ∧ 0 ≤ r ∧ r < D.height ∧
          0 ≤ c ∧ c < S.width ∧ 0 ≤ r ∧ r < S.height ∧
          (S.cells c r).name ≠ "Blank" :=
        ⟨h1, by omega, h3, by omega, h1, h2, h3, h4, hname⟩
      rw [if_pos hcond, if_neg hname]

/-- Witness for C2: a 1 x 1 source filled with the Main brush and a 1 x 1
destination filled with the Area brush. -/
theorem C2_fuse_identity_transparency_witness :
    0 < (Fill (freshPlot 1 1) (Brush.mk "Main" "_")).width ∧
    (Fuse (BlankLike (Fill (freshPlot 1 1) (Brush.mk "Main" "_")))
        (Fill (freshPlot 1 1) (Brush.mk "Main" "_"))
        ⟨0, 0, SouthWest⟩ true true).cells 0 0 =
      (Fill (freshPlot 1 1) (Brush.mk "Main" "_")).cells 0 0 ∧
    (Fuse (Fill (freshPlot 1 1) (Brush.mk "Area" "#"))
        (Fill (freshPlot 1 1) (Brush.mk "Main" "_"))
        ⟨0, 0, SouthWest⟩ false true).cells 0 0 =
      (if ((Fill (freshPlot 1 1) (Brush.mk "Main" "_")).cells 0 0).name = "Blank"
       then (Fill (freshPlot 1 1) (Brush.mk "Area" "#")).cells 0 0
       else (Fill (freshPlot 1 1) (Brush.mk "Main" "_")).cells 0 0) :=
  ⟨by decide,
    (C2_fuse_identity_transparency (Fill (freshPlot 1 1) (Brush.mk "Main" "_"))
      (by decide) (by decide)).1 0 0 (by decide) (by decide) (by decide) (by decide),
    (C2_fuse_identity_transparency (Fill (freshPlot 1 1) (Brush.mk "Main" "_"))
      (by decide) (by decide)).2 (Fill (freshPlot 1 1) (Brush.mk "Area" "#"))
      (by decide) (by decide) 0 0 (by decide) (by decide) (by decide) (by decide)⟩

/-! ## Claim C10 -/

/-- C10: `Fuse` at an arbitrary absolute offset with no adjustment, in
either blank mode, never changes a cell outside the destination bounds;
every changed cell lies in the destination bounds, reads a source cell
whose coordinates lie in the source bounds, and receives exactly that
source cell; and a source lying entirely outside the destination leaves
every destination cell unchanged. -/
theorem C10_fuse_clipping_safety (dst other : Plot) (offc offr : Int) (keep : Bool) :
    (∀ c r : Int, ¬ (0 ≤ c ∧ c < dst.width ∧ 0 ≤ r ∧ r < dst.height) →
      (Fuse dst other ⟨offc, offr, SouthWest⟩ keep false).cells c r = dst.cells c r) ∧
    (∀ c r : Int,
      (Fuse dst other ⟨offc, offr, SouthWest⟩ keep false).cells c r = dst.cells c r ∨
      (0 ≤ c ∧ c < dst.width ∧ 0 ≤ r ∧ r < dst.height ∧
       0 ≤ c - offc ∧ c - offc < other.width ∧ 0 ≤ r - offr ∧ r - offr < other.height ∧
       (Fuse dst other ⟨offc, offr, SouthWest⟩ keep false).cells c r =
         other.cells (c - offc) (r - offr))) ∧
    ((dst.width ≤ offc ∨ offc + other.width ≤ 0 ∨
        dst.height ≤ offr ∨ offr + other.height ≤ 0) →
      ∀ c r : Int,
        (Fuse dst other ⟨offc, offr, SouthWest⟩ keep false).cells c r = dst.cells c r) := by
  have hoff : fuseOffset dst other ⟨offc, offr, SouthWest⟩ false =
      ⟨offc, offr, SouthWest⟩ := fuseOffset_noadjust dst other offc offr
  have hc0 : (Position.mk offc offr SouthWest).col = offc := rfl
  have hr0 : (Position.mk offc offr SouthWest).row = offr := rfl
  have hcells : ∀ c r : Int,
      (Fuse dst other ⟨offc, offr, SouthWest⟩ keep false).cells c r = dst.cells c r ∨
      ((0 ≤ c ∧ c < dst.width ∧ 0 ≤ r ∧ r < dst.height ∧
        0 ≤ c - offc ∧ c - offc < other.width ∧ 0 ≤ r - offr ∧ r - offr < other.height) ∧
       (Fuse dst other ⟨offc, offr, SouthWest⟩ keep false).cells c r =
         other.cells (c - offc) (r - offr)) := by
    intro c r
    cases keep with
    | true =>
        rw [Fuse_cells_keep, hoff, hc0, hr0]
        by_cases h : 0 ≤ c ∧ c < dst.width ∧ 0 ≤ r ∧ r < dst.height ∧
            0 ≤ c - offc ∧ c - offc < other.width ∧ 0 ≤ r - offr ∧ r - offr < other.height
        · right
          exact ⟨⟨h.1, h.2.1, h.2.2.1, h.2.2.2.1, h.2.2.2.2.1, h.2.2.2.2.2.1,
            h.2.2.2.2.2.2.1, h.2.2.2.2.2.2.2⟩, by rw [if_pos h]⟩
        · left
          rw [if_neg h]
    | false =>
        rw [Fuse_cells_skip, hoff, hc0, hr0]
        by_cases h : 0 ≤ c ∧ c < dst.width ∧ 0 ≤ r ∧ r < dst.height ∧
            0 ≤ c - offc ∧ c - offc < other.width ∧ 0 ≤ r - offr ∧ r - offr < other.height ∧
            (other.cells (c - offc) (r - offr)).name ≠ "Blank"
        · right
          exact ⟨⟨h.1, h.2.1, h.2.2.1, h.2.2.2.1, h.2.2.2.2.1, h.2.2.2.2.2.1,
            h.2.2.2.2.2.2.1, h.2.2.2.2.2.2.2.1⟩, by rw [if_pos h]⟩
        · left
          rw [if_neg h]
  refine ⟨?_, ?_, ?_⟩
  · intro c r hout
    rcases hcells c r with h | ⟨hb, -⟩
    · exact h
    · exact absurd ⟨hb.1, hb.2.1, hb.2.2.1, hb.2.2.2.1⟩ hout
  · intro c r
    rcases hcells c r with h | ⟨hb, hv⟩
    · exact Or.inl h
    · exact Or.inr ⟨hb.1, hb.2.1, hb.2.2.1, hb.2.2.2.1, hb.2.2.2.2.1,
        hb.2.2.2.2.2.1, hb.2.2.2.2.2.2.1, hb.2.2.2.2.2.2.2, hv⟩
  · intro hdisj c r
    rcases hcells c r with h | ⟨hb, -⟩
    · exact h
    · omega

/-- Witness for C10: a 1 x 1 source fused onto a 2 x 2 destination at the
far offset (5,0), in both blank modes. -/
theorem C10_fuse_clipping_safety_witness :
    ¬ (0 ≤ (-1 : Int) ∧ (-1 : Int) < (freshPlot 2 2).width ∧
        0 ≤ (0 : Int) ∧ (0 : Int) < (freshPlot 2 2).height) ∧
    (Fuse (freshPlot 2 2) (Fill (freshPlot 1 1) (Brush.mk "Main" "_"))
      ⟨5, 0, SouthWest⟩ true false).cells (-1) 0 = (freshPlot 2 2).cells (-1) 0 ∧
    ((freshPlot 2 2).width ≤ (5 : Int) ∨
      (5 : Int) + (Fill (freshPlot 1 1) (Brush.mk "Main" "_")).width ≤ 0 ∨
      (freshPlot 2 2).height ≤ (0 : Int) ∨
      (0 : Int) + (Fill (freshPlot 1 1) (Brush.mk "Main" "_")).height ≤ 0) ∧
    (Fuse (freshPlot 2 2) (Fill (freshPlot 1 1) (Brush.mk "Main" "_"))
      ⟨5, 0, SouthWest⟩ false false).cells 1 1 = (freshPlot 2 2).cells 1 1 :=
  ⟨by decide,
    (C10_fuse_clipping_safety (freshPlot 2 2)
      (Fill (freshPlot 1 1) (Brush.mk "Main" "_")) 5 0 true).1 (-1) 0 (by decide),
    by decide,
    (C10_fuse_clipping_safety (freshPlot 2 2)
      (Fill (freshPlot 1 1) (Brush.mk "Main" "_")) 5 0 false).2.2 (by decide) 1 1⟩

/-! ## Claim C3 -/

/-- C3 counterexample: on a 5 x 5 plot with a 2 x 2 box (so 0 < boxW <=
W and 0 < boxH <= H) drawn upwards from the absolute position (0, -5),
the adjusted row is -5: the claimed bound 0 <= row fails, because a
negative resolved row leaves `free_rows = height - row >= boxH` and the
row is never pulled up. -/
theorem C3_adjust_counterexample :
    0 < (freshPlot 5 5).width ∧ 0 < (freshPlot 5 5).height ∧
    0 < (2 : Int) ∧ (2 : Int) ≤ (freshPlot 5 5).width ∧
    (2 : Int) ≤ (freshPlot 5 5).height ∧
    (AdjustAbsolutePosition (freshPlot 5 5) ⟨0, -5, SouthWest⟩ 2 2 true).row = -5 ∧
    ¬ 0 ≤ (AdjustAbsolutePosition (freshPlot 5 5) ⟨0, -5, SouthWest⟩ 2 2 true).row := by
  decide

/-- C3 amended: for boxes that fit the canvas, the adjusted column always
lies in [0, W - boxW]; when drawing downwards the adjusted row always
lies in [boxH - 1, H - 1]; when drawing upwards the adjusted row is at
most H - boxH, and it is additionally nonnegative whenever the resolved
input row is nonnegative (a negative resolved row is passed through
unclamped). -/
theorem C3_adjust_bounds (p : Plot) (position : Position) (bw bh : Int)
    (up : Bool) (hH : 0 < p.height)
    (hbw1 : 0 < bw) (hbw2 : bw ≤ p.width) (hbh1 : 0 < bh) (hbh2 : bh ≤ p.height) :
    (0 ≤ (AdjustAbsolutePosition p position bw bh up).col ∧
      (AdjustAbsolutePosition p position bw bh up).col ≤ p.width - bw) ∧
    (up = false → bh - 1 ≤ (AdjustAbsolutePosition p position bw bh up).row ∧
      (AdjustAbsolutePosition p position bw bh up).row ≤ p.height - 1) ∧
    (up = true → (AdjustAbsolutePosition p position bw bh up).row ≤ p.height - bh) ∧
    (up = true → 0 ≤ (GetAbsolutePosition p position).row →
      0 ≤ (AdjustAbsolutePosition p position bw bh up).row) := by
  rcases position with ⟨pc, pr, prel⟩
  have hres : (if (Position.mk pc pr prel).rel = SouthWest then Position.mk pc pr prel
      else GetAbsolutePosition p ⟨pc, pr, prel⟩) = GetAbsolutePosition p ⟨pc, pr, prel⟩ := by
    by_cases h : (Position.mk pc pr prel).rel = SouthWest
    · rw [if_pos h]
      have h2 : prel = SouthWest := h
      subst h2
      show Position.mk pc pr SouthWest = ⟨pc + 0, pr + 0, SouthWest⟩
      rw [add_zero, add_zero]
    · rw [if_neg h]
  have hadj : AdjustAbsolutePosition p ⟨pc, pr, prel⟩ bw bh up =
      (let pos := GetAbsolutePosition p ⟨pc, pr, prel⟩
       let new_col := max 0 pos.col
       let new_row := min (p.height - 1) pos.row
       let free_cols := p.width - new_col
       let free_rows := if up then p.height - new_row else new_row + 1
       let new_col2 := if free_cols < bw then max 0 (p.width - bw) else new_col
       let new_row2 :=
        if free_rows < bh then
          if up then max 0 (p.height - bh) else min (p.height - 1) (bh - 1)
        else new_row
       ⟨new_col2, new_row2, SouthWest⟩) := by
    rw [AdjustAbsolutePosition, hres]
  rw [hadj]
  cases up with
  | true =>
      refine ⟨⟨?_, ?_⟩, fun h => absurd h (by simp), fun _ => ?_, fun _ hrow => ?_⟩ <;>
        · simp only [if_pos rfl, if_true]
          split_ifs <;> omega
  | false =>
      refine ⟨⟨?_, ?_⟩, fun _ => ⟨?_, ?_⟩, fun h => absurd h (by simp), fun h => absurd h (by simp)⟩ <;>
        · simp only [Bool.false_eq_true, if_false]
          split_ifs <;> omega

/-- Witness for C3 amended: a 5 x 5 plot, a 2 x 2 box drawn upwards from
the out-of-range absolute position (7, 9). -/
theorem C3_adjust_bounds_witness :
    (0 ≤ (AdjustAbsolutePosition (freshPlot 5 5) ⟨7, 9, SouthWest⟩ 2 2 true).col ∧
      (AdjustAbsolutePosition (freshPlot 5 5) ⟨7, 9, SouthWest⟩ 2 2 true).col ≤
        (freshPlot 5 5).width - 2) ∧
    (true = false → 2 - 1 ≤ (AdjustAbsolutePosition (freshPlot 5 5) ⟨7, 9, SouthWest⟩ 2 2 true).row ∧
      (AdjustAbsolutePosition (freshPlot 5 5) ⟨7, 9, SouthWest⟩ 2 2 true).row ≤
        (freshPlot 5 5).height - 1) ∧
    (true = true → (AdjustAbsolutePosition (freshPlot 5 5) ⟨7, 9, SouthWest⟩ 2 2 true).row ≤
      (freshPlot 5 5).height - 2) ∧
    (true = true → 0 ≤ (GetAbsolutePosition (freshPlot 5 5) ⟨7, 9, SouthWest⟩).row →
      0 ≤ (AdjustAbsolutePosition (freshPlot 5 5) ⟨7, 9, SouthWest⟩ 2 2 true).row) :=
  C3_adjust_bounds (freshPlot 5 5) ⟨7, 9, SouthWest⟩ 2 2 true
    (by decide) (by decide) (by decide) (by decide) (by decide)

/-! ## Claim C4 -/

/-- Pointwise description of `Shift`: the translated cell where both the
cell and its preimage are in bounds, the fresh default cell elsewhere. -/
theorem Shift_cells (p : Plot) (dc dr c r : Int) :
    (Shift p dc dr).cells c r =
      if 0 ≤ c ∧ c < p.width ∧ 0 ≤ r ∧ r < p.height ∧
          0 ≤ c - dc ∧ c - dc < p.width ∧ 0 ≤ r - dr ∧ r - dr < p.height
      then p.cells (c - dc) (r - dr) else defaultBrush := by
  rw [Shift, Fuse_cells_keep, fuseOffset_noadjust]
  have hcol : (Position.mk dc dr SouthWest).col = dc := rfl
  have hrow : (Position.mk dc dr SouthWest).row = dr := rfl
  have hw : (BlankLike p).width = p.width := rfl
  have hh : (BlankLike p).height = p.height := rfl
  have hcell : (BlankLike p).cells c r = defaultBrush := rfl
  rw [hcol, hrow, hw, hh, hcell]

/-- C4 counterexample: `Shift` by (0,0) does not leave the whole plot
state unchanged: on a 1 x 1 plot carrying the title "T", the shifted
plot's title is the empty string, because `Shift` rebuilds the plot from
`BlankLike` (fresh palette, limits, title, metadata) and only the cell
grid is fused back. -/
theorem C4_shift_counterexample :
    (Shift { freshPlot 1 1 with title := "T" } 0 0).title = "" ∧
    Shift { freshPlot 1 1 with title := "T" } 0 0 ≠
      ({ freshPlot 1 1 with title := "T" } : Plot) := by
  refine ⟨rfl, fun h => ?_⟩
  have ht := congrArg Plot.title h
  revert ht
  decide

/-- C4 amended: `Shift` by (0,0) preserves every in-bounds canvas cell
but resets the title, palette, axis limits and legend metadata to their
construction defaults; and the round trip `Shift (dx,dy)` then
`Shift (-dx,-dy)` restores exactly those in-bounds cells whose translate
by (dx,dy) was in bounds, leaving the default blank cell elsewhere (so
the canvas round-trips when nothing was clipped).  The `Move` half of the
claim is about code with no semantics: `__Plot::Move` cannot be
instantiated (see the remark replacing its model above), so it is left
out of the formal statement. -/
theorem C4_shift_move_zero (p : Plot) :
    (∀ c r : Int, 0 ≤ c → c < p.width → 0 ≤ r → r < p.height →
      (Shift p 0 0).cells c r = p.cells c r) ∧
    (∀ dc dr : Int, (Shift p dc dr).title = "" ∧
      (Shift p dc dr).palette = defaultPalette ∧
      (Shift p dc dr).xlim_left = 0 ∧ (Shift p dc dr).xlim_right = 1 ∧
      (Shift p dc dr).metadata = []) ∧
    (∀ dx dy c r : Int, 0 ≤ c → c < p.width → 0 ≤ r → r < p.height →
      (Shift (Shift p dx dy) (-dx) (-dy)).cells c r =
        if 0 ≤ c + dx ∧ c + dx < p.width ∧ 0 ≤ r + dy ∧ r + dy < p.height
        then p.cells c r else defaultBrush) := by
  refine ⟨?_, ?_, ?_⟩
  · intro c r h1 h2 h3 h4
    rw [Shift_cells, sub_zero, sub_zero, if_pos ⟨h1, h2, h3, h4, h1, h2, h3, h4⟩]
  · intro dc dr
    exact ⟨rfl, rfl, rfl, rfl, rfl⟩
  · intro dx dy c r h1 h2 h3 h4
    rw [Shift_cells]
    have hw : (Shift p dx dy).width = p.width := rfl
    have hh : (Shift p dx dy).height = p.height := rfl
    rw [hw, hh]
    by_cases hb : 0 ≤ c + dx ∧ c + dx < p.width ∧ 0 ≤ r + dy ∧ r + dy < p.height
    · rw [if_pos ⟨h1, h2, h3, h4, by omega, by omega, by omega, by omega⟩,
        Shift_cells, if_pos ⟨by omega, by omega, by omega, by omega, by omega,
          by omega, by omega, by omega⟩,
        show c - -dx - dx = c by omega, show r - -dy - dy = r by omega,
        if_pos hb]
    · rw [if_neg hb]
      by_cases hpre : 0 ≤ c - -dx ∧ c - -dx < p.width ∧ 0 ≤ r - -dy ∧ r - -dy < p.height
      · rw [if_pos ⟨h1, h2, h3, h4, hpre.1, hpre.2.1, hpre.2.2.1, hpre.2.2.2⟩,
          Shift_cells, if_neg (fun h => hb ⟨by omega, by omega, by omega, by omega⟩)]
      · rw [if_neg (fun h => hpre ⟨h.2.2.2.2.1, h.2.2.2.2.2.1,
          h.2.2.2.2.2.2.1, h.2.2.2.2.2.2.2⟩)]

/-- Witness for C4 amended: a 2 x 2 plot filled with the Main brush. -/
theorem C4_shift_move_zero_witness :
    0 ≤ (0 : Int) ∧ (0 : Int) < (Fill (freshPlot 2 2) (Brush.mk "Main" "_")).width ∧
    (Shift (Fill (freshPlot 2 2) (Brush.mk "Main" "_")) 0 0).cells 0 0 =
      (Fill (freshPlot 2 2) (Brush.mk "Main" "_")).cells 0 0 ∧
    (Shift (Fill (freshPlot 2 2) (Brush.mk "Main" "_")) 1 1).title = "" ∧
    (Shift (Shift (Fill (freshPlot 2 2) (Brush.mk "Main" "_")) 1 0) (-1) (-0)).cells 0 0 =
      (if 0 ≤ (0 : Int) + 1 ∧ (0 : Int) + 1 < (Fill (freshPlot 2 2) (Brush.mk "Main" "_")).width ∧
          0 ≤ (0 : Int) + 0 ∧ (0 : Int) + 0 < (Fill (freshPlot 2 2) (Brush.mk "Main" "_")).height
       then (Fill (freshPlot 2 2) (Brush.mk "Main" "_")).cells 0 0 else defaultBrush) :=
  ⟨by decide, by decide,
    (C4_shift_move_zero (Fill (freshPlot 2 2) (Brush.mk "Main" "_"))).1 0 0
      (by decide) (by decide) (by decide) (by decide),
    ((C4_shift_move_zero (Fill (freshPlot 2 2) (Brush.mk "Main" "_"))).2.1 1 1).1,
    (C4_shift_move_zero (Fill (freshPlot 2 2) (Brush.mk "Main" "_"))).2.2 1 0 0 0
      (by decide) (by decide) (by decide) (by decide)⟩

/-! ## Claim C5 -/

/-- The x block never touches the mask or the y limits. -/
theorem setAutoLimitsX_keeps (p : Plot) (x : List Rat) :
    (setAutoLimitsX p x).autolimit = p.autolimit ∧
    (setAutoLimitsX p x).ylim_bottom = p.ylim_bottom ∧
    (setAutoLimitsX p x).ylim_top = p.ylim_top ∧
    (setAutoLimitsX p x).ylim_margin = p.ylim_margin := by
  rw [setAutoLimitsX]
  split_ifs <;> exact ⟨rfl, rfl, rfl, rfl⟩

/-- The y block never touches the x limits. -/
theorem setAutoLimitsY_keeps (p : Plot) (y : List Rat) :
    (setAutoLimitsY p y).xlim_left = p.xlim_left ∧
    (setAutoLimitsY p y).xlim_right = p.xlim_right := by
  rw [setAutoLimitsY]
  split_ifs <;> exact ⟨rfl, rfl⟩

/-- With both x sides auto-set, the x block keeps the limits strictly
ordered exactly when the data is empty or has distinct extremes. -/
theorem setAutoLimitsX_ordered (p : Plot) (x : List Rat)
    (hl : p.autolimit.left = true) (hr : p.autolimit.right = true)
    (hx : x = [] ∨ listMin x < listMax x) (hinv : p.xlim_left < p.xlim_right) :
    (setAutoLimitsX p x).xlim_left < (setAutoLimitsX p x).xlim_right := by
  rw [setAutoLimitsX]
  by_cases hlen : x.length > 0
  · rw [if_pos hlen, if_pos hl, if_pos hr]
    have hlt : listMin x < listMax x := by
      rcases hx with h | h
      · rw [h] at hlen
        simp at hlen
      · exact h
    have hms := abs_nonneg ((listMax x - listMin x) * p.xlim_margin)
    show listMin x - |(listMax x - listMin x) * p.xlim_margin| <
      listMax x + |(listMax x - listMin x) * p.xlim_margin|
    linarith
  · rw [if_neg hlen]
    exact hinv

/-- With both y sides auto-set, the y block keeps the limits strictly
ordered exactly when the data is empty or has distinct extremes. -/
theorem setAutoLimitsY_ordered (p : Plot) (y : List Rat)
    (hb : p.autolimit.bottom = true) (ht : p.autolimit.top = true)
    (hy : y = [] ∨ listMin y < listMax y) (hinv : p.ylim_bottom < p.ylim_top) :
    (setAutoLimitsY p y).ylim_bottom < (setAutoLimitsY p y).ylim_top := by
  rw [setAutoLimitsY]
  by_cases hlen : y.length > 0
  · rw [if_pos hlen, if_pos hb, if_pos ht]
    have hlt : listMin y < listMax y := by
      rcases hy with h | h
      · rw [h] at hlen
        simp at hlen
      · exact h
    have hms := abs_nonneg ((listMax y - listMin y) * p.ylim_margin)
    show listMin y - |(listMax y - listMin y) * p.ylim_margin| <
      listMax y + |(listMax y - listMin y) * p.ylim_margin|
    linarith
  · rw [if_neg hlen]
    exact hinv

/-- C5 counterexample: on a freshly constructed plot (auto-limit mask
All), `DrawPoints` with the constant x-data [5, 5] sets both x limits to
5 — `SetAutoLimits` assigns `xlim_left = min = 5` and `xlim_right = max =
5` and the margin `|(right - left) * margin|` is then zero — so the
strict invariant `xlimLeft < xlimRight` fails in a reachable state. -/
theorem C5_limits_counterexample :
    (DrawPoints (freshPlot 3 3) [5, 5] [7, 8]).xlim_left =
      (DrawPoints (freshPlot 3 3) [5, 5] [7, 8]).xlim_right ∧
    ¬ LimitsOrdered (DrawPoints (freshPlot 3 3) [5, 5] [7, 8]) := by
  have hXl : (setAutoLimitsX (freshPlot 3 3) [5, 5]).xlim_left = 5 := by
    rw [setAutoLimitsX]
    norm_num [listMin, listMax, freshPlot, allBorders]
  have hXr : (setAutoLimitsX (freshPlot 3 3) [5, 5]).xlim_right = 5 := by
    rw [setAutoLimitsX]
    norm_num [listMin, listMax, freshPlot, allBorders]
  have h1 : (DrawPoints (freshPlot 3 3) [5, 5] [7, 8]).xlim_left = 5 := by
    show (setAutoLimitsY (setAutoLimitsX (freshPlot 3 3) [5, 5]) [7, 8]).xlim_left = 5
    rw [(setAutoLimitsY_keeps _ _).1, hXl]
  have h2 : (DrawPoints (freshPlot 3 3) [5, 5] [7, 8]).xlim_right = 5 := by
    show (setAutoLimitsY (setAutoLimitsX (freshPlot 3 3) [5, 5]) [7, 8]).xlim_right = 5
    rw [(setAutoLimitsY_keeps _ _).2, hXr]
  refine ⟨by rw [h1, h2], fun h => ?_⟩
  have h3 := h.1
  rw [h1, h2] at h3
  exact lt_irrefl _ h3

/-- C5 amended: the strict limit ordering holds after construction and is
preserved by every explicit limit setter; `SetAutoLimits` (and hence
`DrawPoints`, which defers to it) preserves it with the full auto-limit
mask provided each nonempty data vector has distinct minimum and maximum
— with constant data the recomputed limits collapse to equality. -/
theorem C5_limits_invariant :
    (∀ w h : Int, LimitsOrdered (freshPlot w h)) ∧
    (∀ p : Plot, ∀ v : Rat, LimitsOrdered p → LimitsOrdered (SetXlimLeft p v)) ∧
    (∀ p : Plot, ∀ v : Rat, LimitsOrdered p → LimitsOrdered (SetXlimRight p v)) ∧
    (∀ p : Plot, ∀ v : Rat, LimitsOrdered p → LimitsOrdered (SetYlimBottom p v)) ∧
    (∀ p : Plot, ∀ v : Rat, LimitsOrdered p → LimitsOrdered (SetYlimTop p v)) ∧
    (∀ p : Plot, ∀ a b : Rat, LimitsOrdered p → LimitsOrdered (SetXlimits p a b)) ∧
    (∀ p : Plot, ∀ a b : Rat, LimitsOrdered p → LimitsOrdered (SetYlimits p a b)) ∧
    (∀ p : Plot, ∀ x y : List Rat, p.autolimit = allBorders →
      (x = [] ∨ listMin x < listMax x) → (y = [] ∨ listMin y < listMax y) →
      LimitsOrdered p → LimitsOrdered (SetAutoLimits p x y)) ∧
    (∀ p : Plot, ∀ x y : List Rat, p.autolimit = allBorders →
      (x = [] ∨ listMin x < listMax x) → (y = [] ∨ listMin y < listMax y) →
      LimitsOrdered p → LimitsOrdered (DrawPoints p x y)) := by
  have hauto : ∀ p : Plot, ∀ x y : List Rat, p.autolimit = allBorders →
      (x = [] ∨ listMin x < listMax x) → (y = [] ∨ listMin y < listMax y) →
      LimitsOrdered p → LimitsOrdered (SetAutoLimits p x y) := by
    intro p x y hmask hx hy hinv
    have hl : p.autolimit.left = true := by rw [hmask]; rfl
    have hr : p.autolimit.right = true := by rw [hmask]; rfl
    have hb : p.autolimit.bottom = true := by rw [hmask]; rfl
    have ht : p.autolimit.top = true := by rw [hmask]; rfl
    constructor
    · show (setAutoLimitsY (setAutoLimitsX p x) y).xlim_left <
        (setAutoLimitsY (setAutoLimitsX p x) y).xlim_right
      rw [(setAutoLimitsY_keeps _ _).1, (setAutoLimitsY_keeps _ _).2]
      exact setAutoLimitsX_ordered p x hl hr hx hinv.1
    · show (setAutoLimitsY (setAutoLimitsX p x) y).ylim_bottom <
        (setAutoLimitsY (setAutoLimitsX p x) y).ylim_top
      refine setAutoLimitsY_ordered (setAutoLimitsX p x) y ?_ ?_ hy ?_
      · rw [(setAutoLimitsX_keeps p x).1, hb]
      · rw [(setAutoLimitsX_keeps p x).1, ht]
      · rw [(setAutoLimitsX_keeps p x).2.1, (setAutoLimitsX_keeps p x).2.2.1]
        exact hinv.2
  refine ⟨?_, ?_, ?_, ?_, ?_, ?_, ?_, hauto, ?_⟩
  · intro w h
    exact ⟨show (0 : Rat) < 1 by norm_num, show (0 : Rat) < 1 by norm_num⟩
  · intro p v hinv
    rw [SetXlimLeft]
    split_ifs with h
    · exact ⟨h, hinv.2⟩
    · exact hinv
  · intro p v hinv
    rw [SetXlimRight]
    split_ifs with h
    · exact ⟨h, hinv.2⟩
    · exact hinv
  · intro p v hinv
    rw [SetYlimBottom]
    split_ifs with h
    · exact ⟨hinv.1, h⟩
    · exact hinv
  · intro p v hinv
    rw [SetYlimTop]
    split_ifs with h
    · exact ⟨hinv.1, h⟩
    · exact hinv
  · intro p a b hinv
    rw [SetXlimits]
    split_ifs with h
    · exact ⟨h, hinv.2⟩
    · exact hinv
  · intro p a b hinv
    rw [SetYlimits]
    split_ifs with h
    · exact ⟨hinv.1, h⟩
    · exact hinv
  · intro p x y hmask hx hy hinv
    exact hauto p x y hmask hx hy hinv

/-- Witness for C5 amended: the fresh 3 x 3 plot, one explicit setter and
one auto-limit recomputation on data with distinct extremes. -/
theorem C5_limits_invariant_witness :
    LimitsOrdered (freshPlot 3 3) ∧
    LimitsOrdered (SetXlimLeft (freshPlot 3 3) (1/2)) ∧
    ((freshPlot 3 3).autolimit = allBorders ∧
      (([1, 2] : List Rat) = [] ∨ listMin [1, 2] < listMax [1, 2]) ∧
      (([7, 8] : List Rat) = [] ∨ listMin [7, 8] < listMax [7, 8])) ∧
    LimitsOrdered (DrawPoints (freshPlot 3 3) [1, 2] [7, 8]) :=
  ⟨C5_limits_invariant.1 3 3,
   C5_limits_invariant.2.1 (freshPlot 3 3) (1/2) (C5_limits_invariant.1 3 3),
   ⟨rfl, Or.inr (by decide), Or.inr (by decide)⟩,
   C5_limits_invariant.2.2.2.2.2.2.2.2 (freshPlot 3 3) [1, 2] [7, 8] rfl
     (Or.inr (by decide)) (Or.inr (by decide)) (C5_limits_invariant.1 3 3)⟩

/-! ## Claim C7 -/

/-- `SetYlimits` never touches the legend metadata. -/
theorem SetYlimits_metadata (p : Plot) (a b : Rat) :
    (SetYlimits p a b).metadata = p.metadata := by
  rw [SetYlimits]
  split_ifs <;> rfl

/-- C7 counterexample: on a 10-wide base plot, two `Add` calls with
length-4 series are both accepted and fully defined — the grouper ends
with 2 series and 2 legend entries — although the second call's
resulting total bar count `(groupSize + 1) * groupCount - 1 = (2 + 1) * 4
- 1 = 11` no longer fits the canvas width 10.  The guard tests the
pre-call bookkeeping, not the resulting count, so the overflowing call is
not ignored. -/
theorem C7_add_counterexample :
    demoGrouper.map (fun g => (g.group_size + 1) * g.ngroups - 1) = some 11 ∧
    demoGrouper.map (fun g => g.baseplot.width) = some 10 ∧
    (BarGrouper.Add (mkBarGrouper (freshPlot 10 5) [])
      [1, 2, 3, 4] "a" (Brush.mk "Area" "#") false).map
      (fun g => g.metadata.length) = some 1 ∧
    demoGrouper.map (fun g => g.metadata.length) = some 2 ∧
    demoGrouper.map (fun g => g.baseplot.metadata.length) = some 2 := by
  decide

/-- C7 amended: an `Add` call is silently ignored — the whole grouper
state, including series count, group bookkeeping, base-plot legend and
y-limits, is returned unchanged — exactly when
`(groupSize + 1) * groupCount - 1` computed from the PRE-call bookkeeping
already exceeds the canvas width.  A call that fits the guard has
undefined behaviour when the series is empty or shorter than the running
group count (out-of-bounds reads, modelled as `none`); every other call
contributes exactly one labeled series (one grouper metadata entry and
one base-plot legend entry), increments the group size and widens the
group count to the data length, so an accepted call may leave a
resulting total bar count that exceeds the width by up to one group. -/
theorem C7_add_guard (bg : BarGrouper) (y : List Rat) (l : String)
    (b : Brush) (ii : Bool) :
    ((bg.group_size + 1) * bg.ngroups - 1 > bg.baseplot.width →
      BarGrouper.Add bg y l b ii = some bg) ∧
    ((bg.group_size + 1) * bg.ngroups - 1 ≤ bg.baseplot.width →
      ((y = [] ∨ (y.length : Int) < bg.ngroups) ↔
        BarGrouper.Add bg y l b ii = none)) ∧
    ((bg.group_size + 1) * bg.ngroups - 1 ≤ bg.baseplot.width →
      y ≠ [] → bg.ngroups ≤ (y.length : Int) →
      (BarGrouper.Add bg y l b ii).map (fun g => g.group_size) =
        some (bg.group_size + 1) ∧
      (BarGrouper.Add bg y l b ii).map (fun g => g.ngroups) =
        some (max bg.ngroups (y.length : Int)) ∧
      (BarGrouper.Add bg y l b ii).map (fun g => g.metadata.length) =
        some (bg.metadata.length + 1) ∧
      (BarGrouper.Add bg y l b ii).map (fun g => g.baseplot.metadata.length) =
        some (bg.baseplot.metadata.length + 1)) := by
  refine ⟨?_, ?_, ?_⟩
  · intro hgt
    rw [BarGrouper.Add, if_neg (by omega)]
  · intro hle
    rw [BarGrouper.Add, if_pos hle]
    simp only []
    have hnil : (y = []) ↔ y.length = 0 := List.length_eq_zero.symm
    have hiff : ((y.length : Int) < max bg.ngroups (y.length : Int) ∨
        max bg.ngroups (y.length : Int) = 0) ↔
        (y.length = 0 ∨ (y.length : Int) < bg.ngroups) := by omega
    by_cases hc : (y.length : Int) < max bg.ngroups (y.length : Int) ∨
        max bg.ngroups (y.length : Int) = 0
    · rw [if_pos hc]
      constructor
      · intro _
        rfl
      · intro _
        rcases hiff.mp hc with h | h
        · exact Or.inl (hnil.mpr h)
        · exact Or.inr h
    · rw [if_neg hc]
      constructor
      · intro h
        exfalso
        apply hc
        apply hiff.mpr
        rcases h with h | h
        · exact Or.inl (hnil.mp h)
        · exact Or.inr h
      · intro h
        exact absurd h (by simp)
  · intro hle hne hlen
    rw [BarGrouper.Add, if_pos hle]
    simp only []
    have hmax : max bg.ngroups (y.length : Int) = (y.length : Int) :=
      max_eq_right hlen
    have hlnz : y.length ≠ 0 := fun h => hne (List.length_eq_zero.mp h)
    rw [if_neg (by rw [hmax]; omega)]
    refine ⟨rfl, rfl, by simp, ?_⟩
    show some ((SetYlimits bg.baseplot _ _).metadata ++ _).length = _
    rw [List.length_append, SetYlimits_metadata]
    rfl

/-- Witness for C7 amended: a grouper whose base plot cannot fit any bar
ignores a call unchanged; the fresh grouper over a 10-wide plot maps an
empty series to the undefined outcome and accepts a singleton series
with exactly one new metadata entry. -/
theorem C7_add_guard_witness :
    BarGrouper.Add (mkBarGrouper (freshPlot (-5) 5) []) [5] "c"
      (Brush.mk "Area" "#") false = some (mkBarGrouper (freshPlot (-5) 5) []) ∧
    BarGrouper.Add (mkBarGrouper (freshPlot 10 5) []) [] "c"
      (Brush.mk "Area" "#") false = none ∧
    (BarGrouper.Add (mkBarGrouper (freshPlot 10 5) []) [5] "c"
      (Brush.mk "Area" "#") false).map (fun g => g.metadata.length) =
      some ((mkBarGrouper (freshPlot 10 5) []).metadata.length + 1) :=
  ⟨(C7_add_guard (mkBarGrouper (freshPlot (-5) 5) []) [5] "c"
      (Brush.mk "Area" "#") false).1 (by decide),
    ((C7_add_guard (mkBarGrouper (freshPlot 10 5) []) [] "c"
      (Brush.mk "Area" "#") false).2.1 (by decide)).mp (Or.inl rfl),
    ((C7_add_guard (mkBarGrouper (freshPlot 10 5) []) [5] "c"
      (Brush.mk "Area" "#") false).2.2 (by decide) (by decide) (by decide)).2.2.1⟩

/-! ## Claim C8 -/

/-- C8: the throwing condition of `Brush::SetValue` matches the claim
exactly — it throws for the empty string and for a single non-printable
byte outside the tab/newline/carriage-return exception set — but the
normalization half of the claim is broken in the code: the exception
branch executes `value_[0] = ' '` without resizing the stored string, so
on a freshly constructed brush (whose stored value is still empty, e.g.
`Brush("\t")`) the stored glyph value stays EMPTY instead of becoming a
single space (an undefined-behaviour write through `operator[]` into the
null terminator), and with a previously stored 2-byte value the result
keeps two bytes instead of a single space. -/
theorem C8_setvalue_normalization :
    (∀ stored value : List Nat,
      setValueThrows (SetValue stored value) = true ↔
        (value = [] ∨ (value.length = 1 ∧ isPrintByte (value.headD 0) = false ∧
          value.headD 0 ≠ 9 ∧ value.headD 0 ≠ 10 ∧ value.headD 0 ≠ 13))) ∧
    SetValue [] [9] = Except.ok [] ∧
    SetValue [200, 65] [9] = Except.ok [32, 65] := by
  refine ⟨?_, rfl, rfl⟩
  intro stored value
  rcases value with _ | ⟨b, rest⟩
  · simp [SetValue, setValueThrows]
  · rw [show SetValue stored (b :: rest) =
        (if isPrintByte b then .ok [b]
         else if rest = [] then
           if b = 9 ∨ b = 10 ∨ b = 13 then
             .ok (match stored with | [] => [] | _ :: t => 32 :: t)
           else .error ()
         else .ok (b :: rest.take 1)) from rfl]
    by_cases hp : isPrintByte b = true
    · rw [if_pos hp]
      simp [setValueThrows, hp]
    · rw [if_neg hp]
      by_cases hr : rest = []
      · subst hr
        rw [if_pos rfl]
        by_cases hb : b = 9 ∨ b = 10 ∨ b = 13
        · rw [if_pos hb]
          simp only [setValueThrows, List.headD_cons, List.length_cons,
            List.length_nil]
          constructor
          · intro h
            exact absurd h (by simp)
          · rintro (h | ⟨-, h1, h2, h3, h4⟩)
            · exact absurd h (by simp)
            · tauto
        · rw [if_neg hb]
          simp only [setValueThrows, List.headD_cons, List.length_cons,
            List.length_nil]
          constructor
          · intro _
            exact Or.inr ⟨by trivial, by simpa using hp, by tauto, by tauto, by tauto⟩
          · intro _
            trivial
      · rw [if_neg hr]
        simp only [setValueThrows, List.headD_cons, List.length_cons]
        constructor
        · intro h
          exact absurd h (by simp)
        · intro h
          rcases h with h | ⟨h1, -⟩
          · exact absurd h (by simp)
          · exact absurd (by omega : rest.length = 0)
              (fun h0 => hr (List.length_eq_zero.mp h0))

/-! ## Claim C9 -/

/-- The 1-bit payload decoder yields one luminance entry per declared
pixel. -/
theorem parsePayload1_length (raw : List Nat) (off w h : Int)
    (hw : 0 ≤ w) (hh : 0 ≤ h) :
    (parsePayload1 raw off w h).length = h.toNat * w.toNat := by
  rw [parsePayload1, List.length_flatten, List.map_map]
  have hfb : Int.tdiv w 8 = w / 8 := Int.tdiv_eq_ediv hw (by norm_num)
  have hrow : ∀ i ∈ List.range h.toNat,
      (List.length ∘ fun (i : Nat) =>
        ((List.range (Int.tdiv w 8).toNat).map (fun (j : Nat) =>
          byteBits (raw.getD (off + (i : Int) * Int.tdiv w 8 + (j : Int)).toNat 0))).flatten
        ++ (byteBits (raw.getD (off + (i : Int) * Int.tdiv w 8 +
            Int.tdiv w 8).toNat 0)).take (w - Int.tdiv w 8 * 8).toNat) i
      = w.toNat := by
    intro i hi
    simp only [Function.comp_apply, List.length_append, List.length_flatten,
      List.map_map, List.length_take]
    have hbits : ∀ j ∈ List.range (Int.tdiv w 8).toNat,
        (List.length ∘ fun (j : Nat) =>
          byteBits (raw.getD (off + (i : Int) * Int.tdiv w 8 + (j : Int)).toNat 0)) j
        = 8 := fun j _ => rfl
    rw [List.map_congr_left hbits, List.map_const', List.length_range,
      List.sum_replicate, smul_eq_mul]
    have h8 : (byteBits (raw.getD (off + (i : Int) * Int.tdiv w 8 +
        Int.tdiv w 8).toNat 0)).length = 8 := rfl
    rw [h8, hfb]
    omega
  rw [List.map_congr_left hrow, List.map_const', List.length_range,
    List.sum_replicate, smul_eq_mul]

/-- The 24-bit payload decoder yields one luminance entry per declared
pixel. -/
theorem parsePayload24_length (raw : List Nat) (off w h : Int) :
    (parsePayload24 raw off w h).length = h.toNat * w.toNat := by
  rw [parsePayload24, List.length_flatten, List.map_map]
  have hrow : ∀ i ∈ List.range h.toNat,
      (List.length ∘ fun (i : Nat) =>
        (List.range w.toNat).map (fun (j : Nat) =>
          (raw.getD (off + (i : Int) * (w * 3 + (4 - Int.tmod (w * 3) 4)) + (j : Int) * 3).toNat 0 +
            raw.getD (off + (i : Int) * (w * 3 + (4 - Int.tmod (w * 3) 4)) + (j : Int) * 3 + 1).toNat 0 +
            raw.getD (off + (i : Int) * (w * 3 + (4 - Int.tmod (w * 3) 4)) + (j : Int) * 3 + 2).toNat 0) / 3)) i
      = w.toNat := by
    intro i hi
    simp only [Function.comp_apply, List.length_map, List.length_range]
  rw [List.map_congr_left hrow, List.map_const', List.length_range,
    List.sum_replicate, smul_eq_mul]

/-- The 32-bit payload decoder yields one luminance entry per declared
pixel. -/
theorem parsePayload32_length (raw : List Nat) (off w h : Int) :
    (parsePayload32 raw off w h).length = h.toNat * w.toNat := by
  rw [parsePayload32, List.length_flatten, List.map_map]
  have hrow : ∀ i ∈ List.range h.toNat,
      (List.length ∘ fun (i : Nat) =>
        (List.range w.toNat).map (fun (j : Nat) =>
          (raw.getD (off + (i : Int) * (w * 4) + (j : Int) * 4).toNat 0 +
            raw.getD (off + (i : Int) * (w * 4) + (j : Int) * 4 + 1).toNat 0 +
            raw.getD (off + (i : Int) * (w * 4) + (j : Int) * 4 + 2).toNat 0) / 3)) i
      = w.toNat := by
    intro i hi
    simp only [Function.comp_apply, List.length_map, List.length_range]
  rw [List.map_congr_left hrow, List.map_const', List.length_range,
    List.sum_replicate, smul_eq_mul]

/-- C9 counterexample: the claimed dichotomy — throw exactly on the three
header conditions, decode to a matching matrix otherwise — only holds of
files long enough for every byte the constructor dereferences.  A
truncated file escapes it entirely: on the empty file `raw_[0]` is
already an out-of-bounds read, and the 30-byte prefix of `demoBmp`
carries a complete valid header (tag "BM", nonnegative 2 x 1 dimensions,
bit depth 1) yet its single payload byte, at the declared offset 30, does
not exist, so the source reads out of bounds instead of producing the
claimed luminance matrix; neither file has a defined outcome. -/
theorem C9_decode_counterexample :
    ImageDecode [] = none ∧
    ImageDecode (demoBmp.take 30) = none ∧
    CheckFormat ((demoBmp.take 30).getD 0 0) ((demoBmp.take 30).getD 1 0) = true ∧
    bmpWidth (demoBmp.take 30) = 2 ∧
    bmpHeight (demoBmp.take 30) = 1 ∧
    bmpBitsPerPixel (demoBmp.take 30) = 1 ∧
    bmpOffset (demoBmp.take 30) = 30 := by
  refine ⟨rfl, rfl, by decide, by decide, by decide, by decide, by decide⟩

/-- C9 amended: on every defined execution — a file long enough that all
the bytes the constructor dereferences exist, `ImageDecode raw = some
res` — the constructor throws exactly when the 2-byte tag is outside the
whitelist (BM, BA, CI, CP, IC, PC), a declared dimension is negative, or
the declared bit depth is not 1, 24 or 32; every accepted input decodes
to a luminance matrix with exactly `width * height` entries for the
declared header dimensions — there is no best-effort decode of a
rejected input.  On shorter files the source instead reads out of bounds
and has no defined outcome. -/
theorem C9_decode_strict (raw : List Nat) (res : Except Unit ImageData)
    (hdef : ImageDecode raw = some res) :
    (imageThrows res = true ↔
      (CheckFormat (raw.getD 0 0) (raw.getD 1 0) = false ∨
        bmpWidth raw < 0 ∨ bmpHeight raw < 0 ∨
        (bmpBitsPerPixel raw ≠ 1 ∧ bmpBitsPerPixel raw ≠ 24 ∧
          bmpBitsPerPixel raw ≠ 32))) ∧
    (∀ img : ImageData, res = .ok img →
      img.width = bmpWidth raw ∧ img.height = bmpHeight raw ∧
      img.img.length = (bmpHeight raw).toNat * (bmpWidth raw).toNat) := by
  rw [ImageDecode] at hdef
  by_cases h0 : raw.length < 2
  · rw [if_pos h0] at hdef
    exact absurd hdef (by simp)
  · rw [if_neg h0] at hdef
    by_cases h1 : CheckFormat (raw.getD 0 0) (raw.getD 1 0) = false
    · rw [if_pos h1] at hdef
      have hr := Option.some.inj hdef
      subst hr
      exact ⟨⟨fun _ => Or.inl h1, fun _ => rfl⟩,
        fun img himg => absurd himg (by simp)⟩
    · rw [if_neg h1] at hdef
      by_cases h1a : raw.length < 26
      · rw [if_pos h1a] at hdef
        exact absurd hdef (by simp)
      · rw [if_neg h1a] at hdef
        by_cases h2 : bmpHeight raw < 0 ∨ bmpWidth raw < 0
        · rw [if_pos h2] at hdef
          have hr := Option.some.inj hdef
          subst hr
          refine ⟨⟨fun _ => ?_, fun _ => rfl⟩,
            fun img himg => absurd himg (by simp)⟩
          rcases h2 with h | h
          · exact Or.inr (Or.inr (Or.inl h))
          · exact Or.inr (Or.inl h)
        · rw [if_neg h2] at hdef
          by_cases h2a : raw.length < 30
          · rw [if_pos h2a] at hdef
            exact absurd hdef (by simp)
          · rw [if_neg h2a] at hdef
            by_cases h3 : bmpBitsPerPixel raw = 1
            · rw [if_pos h3] at hdef
              by_cases hb : payload1InBounds raw.length (bmpOffset raw)
                  (bmpWidth raw) (bmpHeight raw)
              · rw [if_pos hb] at hdef
                have hr := Option.some.inj hdef
                subst hr
                constructor
                · constructor
                  · intro h
                    exact absurd h (by simp [imageThrows])
                  · rintro (h | h | h | ⟨hb1, -, -⟩)
                    · exact absurd h h1
                    · exact absurd (Or.inr h) h2
                    · exact absurd (Or.inl h) h2
                    · exact absurd h3 hb1
                · intro img himg
                  have heq : (⟨bmpWidth raw, bmpHeight raw,
                      parsePayload1 raw (bmpOffset raw) (bmpWidth raw)
                        (bmpHeight raw)⟩ : ImageData) = img := Except.ok.inj himg
                  rw [← heq]
                  exact ⟨rfl, rfl,
                    parsePayload1_length raw (bmpOffset raw) (bmpWidth raw)
                      (bmpHeight raw) (by omega) (by omega)⟩
              · rw [if_neg hb] at hdef
                exact absurd hdef (by simp)
            · rw [if_neg h3] at hdef
              by_cases h4 : bmpBitsPerPixel raw = 24
              · rw [if_pos h4] at hdef
                by_cases hb : payload24InBounds raw.length (bmpOffset raw)
                    (bmpWidth raw) (bmpHeight raw)
                · rw [if_pos hb] at hdef
                  have hr := Option.some.inj hdef
                  subst hr
                  constructor
                  · constructor
                    · intro h
                      exact absurd h (by simp [imageThrows])
                    · rintro (h | h | h | ⟨-, hb2, -⟩)
                      · exact absurd h h1
                      · exact absurd (Or.inr h) h2
                      · exact absurd (Or.inl h) h2
                      · exact absurd h4 hb2
                  · intro img himg
                    have heq : (⟨bmpWidth raw, bmpHeight raw,
                        parsePayload24 raw (bmpOffset raw) (bmpWidth raw)
                          (bmpHeight raw)⟩ : ImageData) = img := Except.ok.inj himg
                    rw [← heq]
                    exact ⟨rfl, rfl, parsePayload24_length raw (bmpOffset raw) _ _⟩
                · rw [if_neg hb] at hdef
                  exact absurd hdef (by simp)
              · rw [if_neg h4] at hdef
                by_cases h5 : bmpBitsPerPixel raw = 32
                · rw [if_pos h5] at hdef
                  by_cases hb : payload32InBounds raw.length (bmpOffset raw)
                      (bmpWidth raw) (bmpHeight raw)
                  · rw [if_pos hb] at hdef
                    have hr := Option.some.inj hdef
                    subst hr
                    constructor
                    · constructor
                      · intro h
                        exact absurd h (by simp [imageThrows])
                      · rintro (h | h | h | ⟨-, -, hb3⟩)
                        · exact absurd h h1
                        · exact absurd (Or.inr h) h2
                        · exact absurd (Or.inl h) h2
                        · exact absurd h5 hb3
                    · intro img himg
                      have heq : (⟨bmpWidth raw, bmpHeight raw,
                          parsePayload32 raw (bmpOffset raw) (bmpWidth raw)
                            (bmpHeight raw)⟩ : ImageData) = img := Except.ok.inj himg
                      rw [← heq]
                      exact ⟨rfl, rfl, parsePayload32_length raw (bmpOffset raw) _ _⟩
                  · rw [if_neg hb] at hdef
                    exact absurd hdef (by simp)
                · rw [if_neg h5] at hdef
                  have hr := Option.some.inj hdef
                  subst hr
                  exact ⟨⟨fun _ => Or.inr (Or.inr (Or.inr ⟨h3, h4, h5⟩)),
                    fun _ => rfl⟩, fun img himg => absurd himg (by simp)⟩

/-- Witness for C9: the hand-constructed 31-byte, 2 x 1, 1-bit bitmap is
fully in bounds and decodes to the luminance matrix [255, 0] of declared
size. -/
theorem C9_decode_strict_witness :
    ImageDecode demoBmp = some (Except.ok ⟨2, 1, [255, 0]⟩) ∧
    ((⟨2, 1, [255, 0]⟩ : ImageData).width = bmpWidth demoBmp ∧
      (⟨2, 1, [255, 0]⟩ : ImageData).height = bmpHeight demoBmp ∧
      (⟨2, 1, [255, 0]⟩ : ImageData).img.length =
        (bmpHeight demoBmp).toNat * (bmpWidth demoBmp).toNat) :=
  ⟨rfl, (C9_decode_strict demoBmp (Except.ok ⟨2, 1, [255, 0]⟩) rfl).2
    ⟨2, 1, [255, 0]⟩ rfl⟩

/-! ## Claim C6 -/

/-- `SetXlimits` only changes the x limits. -/
theorem SetXlimits_height (p : Plot) (a b : Rat) :
    (SetXlimits p a b).height = p.height := by
  rw [SetXlimits]
  split_ifs <;> rfl

/-- `getD` after a `set`. -/
theorem getD_set (l : List Int) (j : Nat) (a : Int) (i : Nat) :
    (l.set j a).getD i 0 = if j = i ∧ j < l.length then a else l.getD i 0 := by
  rw [List.getD_eq_getElem?_getD, List.getElem?_set, List.getD_eq_getElem?_getD]
  by_cases h1 : j = i
  · by_cases h2 : j < l.length
    · rw [if_pos h1, if_pos h2, if_pos ⟨h1, h2⟩]
      rfl
    · rw [if_pos h1, if_neg h2, if_neg (fun h => h2 h.2), ← h1,
        List.getElem?_eq_none (by omega)]
  · rw [if_neg h1, if_neg (fun h => h1 h.1)]

/-- The bin-count fold of `PlotHistogram` preserves the vector length. -/
theorem histCounts_fold_length (idx : Int → Int) :
    ∀ (data acc : List Int),
      (data.foldl (fun l v => l.set (idx v).toNat (l.getD (idx v).toNat 0 + 1))
        acc).length = acc.length := by
  intro data
  induction data with
  | nil => intro acc; rfl
  | cons d ds ih =>
      intro acc
      rw [List.foldl_cons, ih, List.length_set]

/-- A `getD` with default 0 over a list of nonnegative entries is
nonnegative. -/
theorem getD_nonneg (l : List Int) (i : Nat) (h : ∀ c ∈ l, 0 ≤ c) :
    0 ≤ l.getD i 0 := by
  rw [List.getD_eq_getElem?_getD]
  cases hget : l[i]? with
  | none => simp
  | some x =>
      obtain ⟨hlt, hx⟩ := List.getElem?_eq_some.mp hget
      have hmem : x ∈ l := hx ▸ List.getElem_mem hlt
      simpa using h x hmem

/-- Every entry of the bin-count fold is nonnegative. -/
theorem histCounts_fold_nonneg (idx : Int → Int) :
    ∀ (data acc : List Int), (∀ c ∈ acc, 0 ≤ c) →
      ∀ c ∈ data.foldl (fun l v => l.set (idx v).toNat (l.getD (idx v).toNat 0 + 1)) acc,
        0 ≤ c := by
  intro data
  induction data with
  | nil => intro acc hacc; exact hacc
  | cons d ds ih =>
      intro acc hacc
      rw [List.foldl_cons]
      refine ih _ ?_
      intro c hc
      rcases List.mem_or_eq_of_mem_set hc with hmem | heq
      · exact hacc c hmem
      · subst heq
        have h0 := getD_nonneg acc (idx d).toNat hacc
        omega

/-- The bin-count fold never decreases an entry. -/
theorem histCounts_fold_mono (idx : Int → Int) :
    ∀ (data acc : List Int) (i : Nat),
      acc.getD i 0 ≤
        (data.foldl (fun l v => l.set (idx v).toNat (l.getD (idx v).toNat 0 + 1))
          acc).getD i 0 := by
  intro data
  induction data with
  | nil => intro acc i; exact le_refl _
  | cons d ds ih =>
      intro acc i
      rw [List.foldl_cons]
      refine le_trans ?_ (ih _ i)
      rw [getD_set]
      split_ifs with hcase
      · rw [hcase.1]
        omega
      · exact le_refl _

/-- `foldl max` lands on the seed or a list element. -/
theorem foldlMax_cases : ∀ (as : List Int) (a : Int),
    as.foldl max a = a ∨ as.foldl max a ∈ as := by
  intro as
  induction as with
  | nil => intro a; exact Or.inl rfl
  | cons b bs ih =>
      intro a
      rw [List.foldl_cons]
      rcases ih (max a b) with h | h
      · rcases max_choice a b with h2 | h2
        · exact Or.inl (by rw [h, h2])
        · exact Or.inr (by rw [h, h2]; exact List.mem_cons_self b bs)
      · exact Or.inr (List.mem_cons_of_mem b h)

/-- The seed is below `foldl max`. -/
theorem le_foldlMax : ∀ (as : List Int) (a : Int), a ≤ as.foldl max a := by
  intro as
  induction as with
  | nil => intro a; exact le_refl a
  | cons b bs ih =>
      intro a
      rw [List.foldl_cons]
      exact le_trans (le_max_left a b) (ih (max a b))

/-- Every element is below `foldl max`. -/
theorem mem_le_foldlMax : ∀ (as : List Int) (a : Int), ∀ c ∈ as, c ≤ as.foldl max a := by
  intro as
  induction as with
  | nil => intro a c hc; simp at hc
  | cons b bs ih =>
      intro a c hc
      rw [List.foldl_cons]
      rcases List.mem_cons.mp hc with h | h
      · subst h
        exact le_trans (le_max_right a c) (le_foldlMax bs (max a c))
      · exact ih (max a b) c h

/-- `listIMax` of a nonempty list is one of its elements. -/
theorem listIMax_mem (l : List Int) (h : l ≠ []) : listIMax l ∈ l := by
  rcases l with _ | ⟨a, as⟩
  · exact absurd rfl h
  · show as.foldl max a ∈ a :: as
    rcases foldlMax_cases as a with h2 | h2
    · rw [h2]
      exact List.mem_cons_self a as
    · exact List.mem_cons_of_mem a h2

/-- `listIMax` bounds every element. -/
theorem le_listIMax (l : List Int) (c : Int) (hc : c ∈ l) : c ≤ listIMax l := by
  rcases l with _ | ⟨a, as⟩
  · simp at hc
  · show c ≤ as.foldl max a
    rcases List.mem_cons.mp hc with h | h
    · subst h
      exact le_foldlMax as c
    · exact mem_le_foldlMax as a c h

/-- `listIMax` of a mapped list equals the value at an element where the
function attains its maximum. -/
theorem listIMax_map_eq (l : List Int) (f : Int → Int) (b : Int)
    (hb : b ∈ l) (hle : ∀ c ∈ l, f c ≤ f b) : listIMax (l.map f) = f b := by
  have hne : l.map f ≠ [] := by
    intro h
    rw [List.map_eq_nil_iff] at h
    rw [h] at hb
    simp at hb
  refine le_antisymm ?_ (le_listIMax _ _ (List.mem_map_of_mem f hb))
  obtain ⟨c, hc, heq⟩ := List.mem_map.mp (listIMax_mem (l.map f) hne)
  rw [← heq]
  exact hle c hc

/-- The `static_cast<int>` truncation agrees with the floor on nonnegative
rationals. -/
theorem cppIntCast_eq_floor (q : Rat) (hq : 0 ≤ q) : cppIntCast q = ⌊q⌋ := by
  rw [cppIntCast, Int.tdiv_eq_ediv (Rat.num_nonneg.mpr hq) (by positivity),
    Rat.floor_def]

/-- The truncation is monotone on nonnegative rationals. -/
theorem cppIntCast_mono (a b : Rat) (ha : 0 ≤ a) (hab : a ≤ b) :
    cppIntCast a ≤ cppIntCast b := by
  rw [cppIntCast_eq_floor a ha, cppIntCast_eq_floor b (le_trans ha hab)]
  exact Int.floor_le_floor hab

/-- The tallest scaled bar: when the counts are nonnegative with a
positive maximum, the maximum of `bar_heights_` is exactly
`height * factor` truncated. -/
theorem histHeights_max (counts : List Int) (hgt : Int) (factor : Rat)
    (hne : counts ≠ []) (hnn : ∀ c ∈ counts, 0 ≤ c) (hpos : 1 ≤ listIMax counts)
    (hh : 0 ≤ hgt) (hf : 0 ≤ factor) :
    listIMax (histHeights counts hgt factor) = cppIntCast ((hgt : Rat) * factor) := by
  have hMpos : (0 : Rat) < (listIMax counts : Rat) := by
    exact_mod_cast lt_of_lt_of_le Int.zero_lt_one hpos
  have hhgt : (0 : Rat) ≤ (hgt : Rat) := by exact_mod_cast hh
  have hbound : ∀ c ∈ counts,
      cppIntCast ((c : Rat) / (listIMax counts : Rat) * (hgt : Rat) * factor) ≤
      cppIntCast ((listIMax counts : Rat) / (listIMax counts : Rat) * (hgt : Rat) * factor) := by
    intro c hc
    have hc0 : (0 : Rat) ≤ (c : Rat) := by exact_mod_cast hnn c hc
    have hcM : (c : Rat) ≤ (listIMax counts : Rat) := by
      exact_mod_cast le_listIMax counts c hc
    refine cppIntCast_mono _ _ ?_ ?_
    · exact mul_nonneg (mul_nonneg (div_nonneg hc0 (le_of_lt hMpos)) hhgt) hf
    · refine mul_le_mul_of_nonneg_right (mul_le_mul_of_nonneg_right ?_ hhgt) hf
      exact div_le_div_of_nonneg_right hcM (le_of_lt hMpos)
  have hmax := listIMax_map_eq counts
    (fun c => cppIntCast ((c : Rat) / (listIMax counts : Rat) * (hgt : Rat) * factor))
    (listIMax counts) (listIMax_mem counts hne) hbound
  rw [histHeights, hmax]
  show cppIntCast ((listIMax counts : Rat) / (listIMax counts : Rat) *
    (hgt : Rat) * factor) = _
  rw [div_self (ne_of_gt hMpos), one_mul]

/-- C6 counterexample: `PlotHistogram` on constant data — a nonempty
numeric vector with a single distinct value — does not produce
`min(width, 1) = 1` bin: the bin count collapses to 1 and the source then
computes `step = (max - min) / (nbins_ - 1)`, an integer division by
zero, so there is no defined result at all (the model returns `none`). -/
theorem C6_histogram_counterexample :
    (PlotHistogram (freshHistPlot 30 10) [5, 5, 5] 1).isNone = true ∧
    ([5, 5, 5] : List Int) ≠ [] ∧
    (([5, 5, 5] : List Int).dedup.length : Int) = 1 := by
  refine ⟨?_, by decide, by decide⟩
  rw [PlotHistogram, if_neg (by decide),
    if_pos (show min (freshHistPlot 30 10).nbins ((([5, 5, 5] : List Int).dedup.length : Int)) - 1 = 0 from by decide)]
  rfl

/-- C6 amended: whenever `PlotHistogram` on a freshly constructed plot
completes without undefined behaviour (nonempty data, at least two bins,
a nonzero bin width, and every bin index in range — as in the claim's
example `[1,1,1,2,2,3]` on a wide canvas), the bin count is exactly
`min(canvas width, distinct values)` and the tallest bar height is
exactly the canvas height times `min(1, resize)`, truncated to an
integer; with a single distinct value or a unit-wide canvas the code
instead divides by zero. -/
theorem C6_histogram_binning (w h : Int) (data : List Int) (resize : Rat)
    (res : HistData)
    (hres : PlotHistogram (freshHistPlot w h) data resize = some res)
    (hh : 0 ≤ h) (hr : 0 ≤ resize) :
    res.nbins = min w ((data.dedup.length : Int)) ∧
    listIMax res.heights = cppIntCast ((h : Rat) * min 1 resize) := by
  rcases data with _ | ⟨d, ds⟩
  · rw [PlotHistogram, if_pos rfl] at hres
    exact absurd hres (by simp)
  · rw [PlotHistogram, if_neg (by simp)] at hres
    simp only [] at hres
    set nb := min (freshHistPlot w h).nbins (((d :: ds).dedup.length : Int)) with hnb
    set st := histStep nb (listIMin (d :: ds)) (listIMax (d :: ds)) with hst
    set p := SetXlimits (freshHistPlot w h).plot
      ((listIMin (d :: ds) - Int.tdiv st 2 : Int) : Rat)
      ((listIMax (d :: ds) + Int.tdiv st 2 : Int) : Rat) with hp
    by_cases h1 : nb - 1 = 0
    · rw [if_pos h1] at hres
      exact absurd hres (by simp)
    · rw [if_neg h1] at hres
      by_cases h2 : st = 0
      · rw [if_pos h2] at hres
        exact absurd hres (by simp)
      · rw [if_neg h2] at hres
        by_cases h3 : (d :: ds).all (fun v =>
            decide (0 ≤ histIdx p.xlim_left st v ∧ histIdx p.xlim_left st v < nb)) = true
        · rw [if_pos h3] at hres
          have hrec := Option.some.inj hres
          subst hrec
          have hall := List.all_eq_true.mp h3
          have hd3 : 0 ≤ histIdx p.xlim_left st d ∧ histIdx p.xlim_left st d < nb :=
            of_decide_eq_true (hall d (List.mem_cons_self d ds))
          -- abbreviations for the counting fold
          set idx := histIdx p.xlim_left st with hidx
          have hlen : (histCounts idx nb (d :: ds)).length = nb.toNat := by
            rw [histCounts, histCounts_fold_length, List.length_replicate]
          have hnn : ∀ c ∈ histCounts idx nb (d :: ds), 0 ≤ c := by
            rw [histCounts]
            refine histCounts_fold_nonneg idx (d :: ds) _ ?_
            intro c hc
            rw [List.eq_of_mem_replicate hc]
          have hne : histCounts idx nb (d :: ds) ≠ [] := by
            intro hnil
            rw [hnil] at hlen
            simp at hlen
            omega
          have hpos : 1 ≤ listIMax (histCounts idx nb (d :: ds)) := by
            have hi0 : (idx d).toNat < nb.toNat := by omega
            have hinit : (List.replicate nb.toNat (0 : Int)).getD (idx d).toNat 0 = 0 := by
              rw [List.getD_eq_getElem?_getD]
              cases hget : (List.replicate nb.toNat (0 : Int))[(idx d).toNat]? with
              | none => rfl
              | some x =>
                  obtain ⟨hlt, hx⟩ := List.getElem?_eq_some.mp hget
                  have hmem : x ∈ List.replicate nb.toNat (0 : Int) :=
                    hx ▸ List.getElem_mem hlt
                  rw [List.eq_of_mem_replicate hmem]
                  rfl
            have hstep1 : ((List.replicate nb.toNat (0 : Int)).set (idx d).toNat
                ((List.replicate nb.toNat (0 : Int)).getD (idx d).toNat 0 + 1)).getD
                (idx d).toNat 0 = 1 := by
              rw [getD_set, if_pos ⟨rfl, by rw [List.length_replicate]; exact hi0⟩, hinit]
              decide
            have hmono := histCounts_fold_mono idx ds
              ((List.replicate nb.toNat (0 : Int)).set (idx d).toNat
                ((List.replicate nb.toNat (0 : Int)).getD (idx d).toNat 0 + 1))
              (idx d).toNat
            rw [hstep1] at hmono
            have hfold : histCounts idx nb (d :: ds) =
                ds.foldl (fun l v => l.set (idx v).toNat (l.getD (idx v).toNat 0 + 1))
                  ((List.replicate nb.toNat (0 : Int)).set (idx d).toNat
                    ((List.replicate nb.toNat (0 : Int)).getD (idx d).toNat 0 + 1)) := by
              rw [histCounts, List.foldl_cons]
            have hmem : (histCounts idx nb (d :: ds)).getD (idx d).toNat 0 ∈
                histCounts idx nb (d :: ds) := by
              rw [List.getD_eq_getElem?_getD]
              cases hget : (histCounts idx nb (d :: ds))[(idx d).toNat]? with
              | none =>
                  exfalso
                  have := List.getElem?_eq_none_iff.mp hget
                  omega
              | some x =>
                  obtain ⟨hlt, hx⟩ := List.getElem?_eq_some.mp hget
                  exact hx ▸ List.getElem_mem hlt
            have hgot : 1 ≤ (histCounts idx nb (d :: ds)).getD (idx d).toNat 0 := by
              rw [hfold]
              exact hmono
            exact le_trans hgot (le_listIMax _ _ hmem)
          have hph : p.height = h := by
            rw [hp, SetXlimits_height]
            rfl
          refine ⟨rfl, ?_⟩
          show listIMax (histHeights (histCounts idx nb (d :: ds)) p.height
            (min 1 resize)) = _
          rw [hph]
          exact histHeights_max (histCounts idx nb (d :: ds)) h (min 1 resize)
            hne hnn hpos hh (le_min zero_le_one hr)
        · rw [if_neg h3] at hres
          exact absurd hres (by simp)

/-- Truncation of a nonnegative rational pinned between two consecutive
integers. -/
theorem cppIntCast_eval (q : Rat) (n : Int) (h0 : 0 ≤ q)
    (h1 : (n : Rat) ≤ q) (h2 : q < n + 1) : cppIntCast q = n := by
  rw [cppIntCast_eq_floor q h0]
  exact Int.floor_eq_iff.mpr ⟨h1, h2⟩

/-- Bin index of sample value 1 in the demo histogram (limits start at 1,
step 1). -/
theorem demoIdx1 : histIdx ((1 : Int) : Rat) 1 1 = 0 := by
  rw [histIdx]
  exact cppIntCast_eval _ 0 (by norm_num) (by norm_num) (by norm_num)

/-- Bin index of sample value 2 in the demo histogram. -/
theorem demoIdx2 : histIdx ((1 : Int) : Rat) 1 2 = 1 := by
  rw [histIdx]
  exact cppIntCast_eval _ 1 (by norm_num) (by norm_num) (by norm_num)

/-- Bin index of sample value 3 in the demo histogram. -/
theorem demoIdx3 : histIdx ((1 : Int) : Rat) 1 3 = 2 := by
  rw [histIdx]
  exact cppIntCast_eval _ 2 (by norm_num) (by norm_num) (by norm_num)

/-- Full evaluation of the histogram pipeline on the data
`[1,1,1,2,2,3]` over a 30-by-10 canvas with height resize 4/5: three
bins of width 1, x-limits 1 to 3, counts 3/2/1 and scaled bar heights
8/5/2. -/
theorem C6_demo_eval :
    PlotHistogram (freshHistPlot 30 10) [1, 1, 1, 2, 2, 3] (4 / 5) =
    some { nbins := 3, counts := [3, 2, 1], heights := [8, 5, 2],
           plot := SetXlimits (freshHistPlot 30 10).plot
             ((1 : Int) : Rat) ((3 : Int) : Rat) } := by
  rw [PlotHistogram,
    if_neg (show ¬([1, 1, 1, 2, 2, 3] : List Int) = [] by decide)]
  simp only []
  set nb := min (freshHistPlot 30 10).nbins
    ((([1, 1, 1, 2, 2, 3] : List Int).dedup.length : Int)) with hnb
  set st := histStep nb (listIMin [1, 1, 1, 2, 2, 3])
    (listIMax [1, 1, 1, 2, 2, 3]) with hst
  set p := SetXlimits (freshHistPlot 30 10).plot
    ((listIMin [1, 1, 1, 2, 2, 3] - Int.tdiv st 2 : Int) : Rat)
    ((listIMax [1, 1, 1, 2, 2, 3] + Int.tdiv st 2 : Int) : Rat) with hp
  have hnbv : nb = 3 := by rw [hnb]; decide
  have hstv : st = 1 := by rw [hst, hnbv]; decide
  have hpv : p = SetXlimits (freshHistPlot 30 10).plot
      ((1 : Int) : Rat) ((3 : Int) : Rat) := by
    rw [hp, hstv]
    rfl
  have hxl : p.xlim_left = ((1 : Int) : Rat) := by
    rw [hpv, SetXlimits, if_pos (by decide)]
  have hhv : p.height = 10 := by
    rw [hpv, SetXlimits_height]
    rfl
  rw [if_neg (show ¬nb - 1 = 0 by rw [hnbv]; decide),
    if_neg (show ¬st = 0 by rw [hstv]; decide)]
  have hguard : ([1, 1, 1, 2, 2, 3] : List Int).all (fun v =>
      decide (0 ≤ histIdx p.xlim_left st v ∧
        histIdx p.xlim_left st v < nb)) = true := by
    simp only [List.all_cons, List.all_nil, hxl, hstv, hnbv,
      demoIdx1, demoIdx2, demoIdx3]
    decide
  rw [if_pos hguard]
  have hcv : histCounts (histIdx p.xlim_left st) nb [1, 1, 1, 2, 2, 3] =
      [3, 2, 1] := by
    simp only [hxl, hstv, hnbv, histCounts, List.foldl_cons, List.foldl_nil,
      demoIdx1, demoIdx2, demoIdx3]
    rfl
  rw [hcv, hhv]
  have hhtv : histHeights [3, 2, 1] 10 (min 1 (4 / 5 : Rat)) = [8, 5, 2] := by
    have hm : min (1 : Rat) (4 / 5) = 4 / 5 := by norm_num
    rw [hm, histHeights]
    simp only [List.map_cons, List.map_nil]
    rw [show listIMax [3, 2, 1] = 3 from rfl]
    rw [cppIntCast_eval _ 8 (by norm_num) (by norm_num) (by norm_num),
      cppIntCast_eval _ 5 (by norm_num) (by norm_num) (by norm_num),
      cppIntCast_eval _ 2 (by norm_num) (by norm_num) (by norm_num)]
  rw [hhtv, hnbv, hpv]

/-- C6 witness: on the claim's example data `[1,1,1,2,2,3]` over a
30-by-10 canvas resized by 4/5, the histogram completes with
`min(30, 3) = 3` bins and a tallest bar of `trunc(10 * 4/5) = 8` rows. -/
theorem C6_histogram_binning_witness :
    (0 : Int) ≤ 10 ∧ (0 : Rat) ≤ 4 / 5 ∧
    ((HistData.mk 3 [3, 2, 1] [8, 5, 2]
        (SetXlimits (freshHistPlot 30 10).plot
          ((1 : Int) : Rat) ((3 : Int) : Rat))).nbins =
      min 30 ((([1, 1, 1, 2, 2, 3] : List Int).dedup.length : Int)) ∧
     listIMax (HistData.mk 3 [3, 2, 1] [8, 5, 2]
        (SetXlimits (freshHistPlot 30 10).plot
          ((1 : Int) : Rat) ((3 : Int) : Rat))).heights =
      cppIntCast (((10 : Int) : Rat) * min 1 (4 / 5))) :=
  ⟨by decide, div_nonneg (by decide) (by decide),
    C6_histogram_binning 30 10 [1, 1, 1, 2, 2, 3] (4 / 5) _ C6_demo_eval
      (by decide) (div_nonneg (by decide) (by decide))⟩

end Askiplot
